import Mathlib

/-!
Verification development for the 1c-buddy chat rendering pipeline
(`app/chat/static/markdown.js`, `xml.js`, `app.js`).

Strings are modelled as `List Char`.  JavaScript string indexing
(`code[i]`, which yields `undefined` out of range) is modelled with
`l[i]?`; places where a JS regex test is applied to an out-of-range
(undefined) character are translated explicitly, since JS coerces
`undefined` to the string "undefined" before testing.

All scanners are written with explicit fuel so that every definition is
executable by kernel reduction; the fuel supplied by the public wrappers
is always sufficient except where the original JavaScript loop itself
fails to make progress (which is exactly what one of the claims is
about).
-/

namespace JsStr

/-- Character strings, modelled as lists of characters. -/
abbrev Str := List Char

/-- Length of the longest prefix satisfying `p` (used to model greedy
character-class scans such as `while (j < len && p(code[j])) j++`). -/
def countWhile (p : Char → Bool) : Str → Nat
  | [] => 0
  | c :: cs => if p c then countWhile p cs + 1 else 0

theorem countWhile_le (p : Char → Bool) : ∀ s : Str, countWhile p s ≤ s.length := by
  intro s
  induction s with
  | nil => simp [countWhile]
  | cons c cs ih =>
    by_cases h : p c
    · simp only [countWhile, h, if_true, List.length_cons]
      omega
    · simp [countWhile, h]

/-- `code.slice(i, j)` (JS `String.prototype.slice` for `0 ≤ i ≤ j`). -/
def sliceJS (s : Str) (i j : Nat) : Str := (s.drop i).take (j - i)

theorem sliceJS_append_drop (s : Str) (i j : Nat) (h : i ≤ j) :
    sliceJS s i j ++ s.drop j = s.drop i := by
  have h1 : s.drop j = List.drop (j - i) (s.drop i) := by
    rw [List.drop_drop]
    congr 1
    omega
  rw [sliceJS, h1, List.take_append_drop]

/-- Index of the first occurrence of `needle` (JS `indexOf` restricted to
found/not-found). -/
def findSub (needle : Str) : Str → Option Nat
  | [] => if needle.isEmpty then some 0 else none
  | c :: cs =>
    if needle.isPrefixOf (c :: cs) then some 0
    else (findSub needle cs).map (· + 1)

/-- JS `String.prototype.includes`. -/
def hasSub (needle s : Str) : Bool := (findSub needle s).isSome

/-- ASCII lower-casing plus the Cyrillic block and Ё, matching the effect
of JS `toLowerCase` on the characters that occur in the vocabularies. -/
def jsToLower (c : Char) : Char :=
  if 'A' ≤ c ∧ c ≤ 'Z' then Char.ofNat (c.toNat + 32)
  else if 'А' ≤ c ∧ c ≤ 'Я' then Char.ofNat (c.toNat + 32)
  else if c = 'Ё' then 'ё'
  else c

/-- JS `toUpperCase` on the same character ranges. -/
def jsToUpper (c : Char) : Char :=
  if 'a' ≤ c ∧ c ≤ 'z' then Char.ofNat (c.toNat - 32)
  else if 'а' ≤ c ∧ c ≤ 'я' then Char.ofNat (c.toNat - 32)
  else if c = 'ё' then 'Ё'
  else c

/-- ASCII upper-casing only (used for the case-insensitive `<!DOCTYPE`
comparison, `slice(i, i+9).toUpperCase()`, whose pattern is ASCII). -/
def asciiUpper (c : Char) : Char :=
  if 'a' ≤ c ∧ c ≤ 'z' then Char.ofNat (c.toNat - 32) else c

/-- The JS regex word character class `\w` = `[A-Za-z0-9_]` (ASCII only;
this is what `\b` boundaries are computed from). -/
def reWordChar (c : Char) : Bool :=
  ('a' ≤ c ∧ c ≤ 'z') ∨ ('A' ≤ c ∧ c ≤ 'Z') ∨ ('0' ≤ c ∧ c ≤ '9') ∨ c = '_'

/-- ASCII decimal digit. -/
def isDig (c : Char) : Bool := '0' ≤ c ∧ c ≤ '9'

/-- The JS regex `\s` class: the ASCII whitespace, the line terminators
U+2028/U+2029, the BOM U+FEFF, and every Unicode space separator (NBSP,
Ogham space U+1680, U+2000-U+200A, U+202F, U+205F, U+3000). -/
def jsWs (c : Char) : Bool :=
  c = ' ' ∨ c = '\t' ∨ c = '\n' ∨ c = '\r' ∨ c = '\x0b' ∨ c = '\x0c' ∨
  c.toNat = 0xa0 ∨ c.toNat = 0x1680 ∨
  (0x2000 ≤ c.toNat ∧ c.toNat ≤ 0x200a) ∨ c.toNat = 0x2028 ∨
  c.toNat = 0x2029 ∨ c.toNat = 0x202f ∨ c.toNat = 0x205f ∨
  c.toNat = 0x3000 ∨ c.toNat = 0xfeff

/-- JS line terminators (the characters excluded by `.`). -/
def lineTerm (c : Char) : Bool :=
  c = '\n' ∨ c = '\r' ∨ c = ' ' ∨ c = ' '

/-- `s.trim()`. -/
def trimJS (s : Str) : Str :=
  ((s.dropWhile jsWs).reverse.dropWhile jsWs).reverse

/-- `s.trimEnd()`. -/
def trimEndJS (s : Str) : Str :=
  (s.reverse.dropWhile jsWs).reverse

/-- Global single-character replacement, `s.replace(/c/g, rep)`. -/
def replaceCharAll (t : Char) (rep : Str) : Str → Str
  | [] => []
  | c :: cs => (if c = t then rep else [c]) ++ replaceCharAll t rep cs

/-- The backtick character (U+0060). -/
def btick : Char := Char.ofNat 96

/-- Decimal digit characters of a natural number, fuelled version. -/
def natCharsF : Nat → Nat → Str
  | 0, _ => []
  | f + 1, n =>
    if n < 10 then [Char.ofNat (48 + n)]
    else natCharsF f (n / 10) ++ [Char.ofNat (48 + n % 10)]

/-- JS `String(n)` for a natural number: its decimal digits. -/
def natChars (n : Nat) : Str := natCharsF (n + 1) n

end JsStr

/-- A highlighter span: the position of its first character, its CSS
class (`none` means "plain escaped text, no wrapping element") and the
un-escaped source text it covers. -/
structure Tok where
  start : Nat
  cls : Option String
  src : JsStr.Str
deriving DecidableEq

/-- Concatenation of the un-escaped source text of a span list. -/
def srcConcat (ts : List Tok) : JsStr.Str := (ts.map Tok.src).flatten

namespace BSL

open JsStr

/-- `esc` from markdown.js (BSL highlighter): three sequential global
replaces of `&`, `<`, `>`. -/
def esc (s : Str) : Str :=
  replaceCharAll '>' ['&', 'g', 't', ';']
    (replaceCharAll '<' ['&', 'l', 't', ';']
      (replaceCharAll '&' ['&', 'a', 'm', 'p', ';'] s))

/-- `isWordStart`: `/[A-Za-z_А-яЁё]/` (latin, `_`,
Cyrillic incl. Ёё).  The same class appears inline in the preprocessor
and attribute branches. -/
def isWordStart (c : Char) : Bool :=
  ('A' ≤ c ∧ c ≤ 'Z') ∨ ('a' ≤ c ∧ c ≤ 'z') ∨ c = '_' ∨
  ('А' ≤ c ∧ c ≤ 'я') ∨ c = 'Ё' ∨ c = 'ё'

/-- `isWordChar`: `/[A-Za-z0-9_А-яЁё]/`. -/
def isWordChar (c : Char) : Bool :=
  isWordStart c ∨ ('0' ≤ c ∧ c ≤ '9')

def KEYWORDS_RU : List String := [
  "процедура", "функция", "конецпроцедуры", "конецфункции",
  "перем", "экспорт",
  "если", "тогда", "иначе", "иначеесли", "конецесли",
  "для", "каждого", "каждый", "из", "по", "пока", "цикл", "конеццикла",
  "возврат", "прервать", "продолжить",
  "попытка", "исключение", "конецпопытки", "вызватьисключение",
  "новый", "перейти",
  "и", "или", "не",
  "истина", "ложь", "неопределено", "null",
  "этотобъект",
  "как", "разрешенные", "различные", "первые", "пустаятаблица",
  "поместить", "уничтожить", "индексировать",
  "выразить", "подобно", "escape", "ссылка",
  "datetime", "иерархии", "автоупорядочивание",
  "периодами", "только", "иерархия",
  "внутреннее", "левое", "правое", "полное", "соединение",
  "где", "сгруппировать", "имеющие", "объединить", "упорядочить",
  "автоупорядочивание", "итоги", "общие", "только", "иерархия",
  "для", "изменения", "в", "количество", "сумма", "среднее",
  "максимум", "минимум", "есть", "между", "в",
  "содержит", "начинаетсяс", "заканчиваетсяна",
  "возр", "убыв", "всего"]

def KEYWORDS_EN : List String := [
  "procedure", "function", "endprocedure", "endfunction",
  "var", "export",
  "if", "then", "else", "elseif", "endif",
  "for", "each", "in", "to", "while", "do", "enddo",
  "return", "break", "continue",
  "try", "except", "endtry", "raise",
  "new", "goto",
  "and", "or", "not",
  "true", "false", "undefined", "null",
  "thisobject",
  "as", "allowed", "distinct", "top", "emptytable",
  "into", "drop", "index",
  "cast", "like", "escape", "refs",
  "value", "datetime", "hierarchies", "autoorder",
  "periods", "only", "hierarchy",
  "inner", "left", "right", "full", "join",
  "where", "group", "by", "having", "union", "order",
  "autoorder", "totals", "overall", "only", "hierarchy",
  "for", "update", "of", "count", "sum", "avg",
  "max", "min", "is", "between", "in",
  "contains", "beginswith", "endswith",
  "asc", "desc", "total"]

/-- The `KEYWORDS` set (entries are already lower case in the source). -/
def KEYWORDS : List String := KEYWORDS_RU ++ KEYWORDS_EN

/-- Keywords highlighted only when written in ALL CAPS. -/
def UPPERCASE_ONLY_KEYWORDS : List String :=
  ["выбрать", "выбор", "когда", "конец"]

def TYPES_RU : List String := [
  "httpсоединение", "httpзапрос", "httpответ", "ftpсоединение", "wsпрокси",
  "интернетпрокси", "защищенноесоединениеopenssl",
  "таблицазначений", "колонкатаблицызначений", "коллекциязначений",
  "соответствие", "массив", "структура", "фиксированныймассив", "фиксированнаяструктура",
  "списокзначений", "деревозначений", "строкадеревазначений",
  "запрос", "выборка", "построительзапроса", "построительотчета", "схемазапроса",
  "менеджервременныхтаблиц", "описаниетипов", "квалификаторыстроки", "квалификаторычисла",
  "квалификаторыдаты", "квалификаторыдвоичныхданных",
  "оборотыдт", "оборотыдткт", "обороты", "остатки", "остаткиивороты",
  "границы", "срезпервых", "срезпоследних",
  "записьрегистра", "наборзаписей", "менеджерзаписи",
  "строка", "число", "дата", "булево", "тип",
  "хранилищезначения", "двоичныеданные", "буфердвоичныхданных",
  "xmlчтение", "xmlзапись", "чтениеjson", "записьjson", "чтениеданных", "записьданных",
  "чтениетекста", "записьтекста", "текстовыйдокумент", "форматированныйдокумент",
  "табличныйдокумент", "построительтабличногодокумента",
  "файл", "файловыйпоток", "каталог", "поискфайлов", "zipфайл",
  "управляемаяформа", "формаклиентскогоприложения", "командаформы", "элементформы",
  "таблицаформы", "группаформы", "кнопкаформы", "полеформы",
  "соединение", "comобъект", "фоновоезадание", "wsссылка", "wsопределения",
  "сериализаторxdto", "фабрикаxdto", "объектxdto",
  "уникальныйидентификатор", "граница", "точкавовремени",
  "форматированнаястрока", "картинка", "шрифт", "цвет",
  "хешированиеданных", "шифрованиеданных", "электроннаяподпись", "сертификатклиента",
  "сообщениепользователю", "диалогвыборафайла", "диалогредактированияформатированнойстроки"]

def TYPES_EN : List String := [
  "httpconnection", "httprequest", "httpresponse", "ftpconnection", "wsproxy",
  "array", "structure", "fixedarray", "fixedstructure", "map",
  "valuetable", "valuetree", "valuelist",
  "query", "querybuilder", "queryschema", "selection",
  "type", "typedescription",
  "file", "binarydata", "textreader", "textwriter",
  "xmlreader", "xmlwriter", "jsonreader", "jsonwriter",
  "uuid", "boundary", "formatstring", "picture"]

def TYPES : List String := TYPES_RU ++ TYPES_EN

def BUILTINS_RU : List String := [
  "стрдлина", "стрнайти", "стрполучитьстроку", "стрразделить", "стрсоединить",
  "стрзаменить", "стршаблон", "стрначинаетсяс", "стрзаканчиваетсяна",
  "сокрл", "сокрп", "сокрлп", "врег", "нрег", "трег", "симв", "кодсимв",
  "пустаястрока", "стрсравнить", "стрчислострок", "стрчисловхождений", "стрповторить",
  "подстрока", "представление", "стрзаканчиваетсяна", "лев", "прав", "сред",
  "нстр",
  "стрсоответствуетшаблону", "стрнайтирегулярноевыражение", "стрзаменитьрегулярноевыражение", "стрразделитьрегулярноевыражение",
  "число", "цел", "окр", "округлить", "макс", "мин", "формат", "pow", "sqrt", "log", "log10", "exp",
  "sin", "cos", "tan", "asin", "acos", "atan", "abs", "случайноечисло",
  "дата", "год", "месяц", "день", "час", "минута", "секунда", "деньгода", "деньнедели",
  "неделягода", "началогода", "началомесяца", "началоквартала", "началонедели",
  "началодня", "началочаса", "началоминуты", "конецгода", "конецмесяца", "конецквартала",
  "конецнедели", "конецдня", "конецчаса", "конецминуты", "добавитьмесяц", "добавитькдате",
  "текущаядата", "текущаядатасеанса", "рабочаядата", "универсальноевремя",
  "тип", "типзнч", "строка", "булево", "xmlтип", "xmlтипзнч", "xmlзначение", "xmlстрока",
  "сообщить", "вопрос", "предупреждение", "оповестить", "оповеститьобизменении",
  "установитьзаголовокклиентскогоприложения", "состояние", "активизироватьокно", "активноеокно",
  "ввестидату", "ввестизначение", "ввестистроку", "ввестичисло",
  "показатьвводдаты", "показатьвводзначения", "показатьвводстроки", "показатьвводчисла",
  "показатьпредупреждение", "показатьоповещениепользователя", "показатьинформациюобошибке",
  "открытьформу", "открытьзначение", "открытьформумодально", "получитьформу", "получитьнавигационнуюссылку",
  "открытьсправку", "закрытьсправку", "открытьсодержаниесправки", "открытьиндекссправки",
  "сигнал", "обработкапрерыванияпользователя",
  "краткоепредставлениеошибки", "подробноепредставлениеошибки", "описатьошибку",
  "новый",
  "значение", "значениезаполнено", "заполнитьзначениясвойств", "скопироватьзначения",
  "значениевстрокувнутр", "значениеизстрокивнутр",
  "значениевфайл", "значениеизфайла",
  "восстановитьзначение", "сохранитьзначение",
  "очиститьнастройкипользователя", "удалитьнастройкипользователя",
  "прочитатьjson", "записатьjson", "xdtoсериализатор", "xdtoфабрика",
  "прочитатьxml", "записатьxml", "возможностьчтенияxml", "найтинедопустимыесимволыxml",
  "получитьxmlтип", "изxmlтипа", "импортмоделиxdto", "создатьфабрикуxdto",
  "объединитьпути", "разъединитьпути", "каталогвременныхфайлов", "каталогдокументов", "каталогпрограммы",
  "получитьимявременногофайла", "разделитьфайл", "объединитьфайлы", "файлсуществует", "найтифайлы",
  "копироватьфайл", "переместитьфайл", "удалитьфайлы", "создатькаталог",
  "получитьфайл", "получитьфайлы", "поместитьфайл", "поместитьфайлы",
  "получитьизвременногохранилища", "поместитьвовременноехранилище", "этоадресвременногохранилища",
  "получитьвременноехранилище",
  "подключитьрасширениеработысфайлами", "установитьрасширениеработысфайлами",
  "запроситьразрешениепользователя",
  "началотранзакции", "зафиксироватьтранзакцию", "отменитьтранзакцию",
  "заблокироватьданныедляредактирования", "разблокироватьданныедляредактирования",
  "получитьблокировкусеансов", "установитьблокировкусеансов",
  "получитьвремяожиданияблокировкиданных", "установитьвремяожиданияблокировкиданных",
  "установитьмонопольныйрежим", "монопольныйрежим", "установитьпривилегированныйрежим", "привилегированныйрежим",
  "пользователиинформационнойбазы", "рольдоступна", "правоДоступа",
  "безопасныйрежим", "установитьбезопасныйрежим",
  "кодлокализацииинформационнойбазы", "конфигурацияизменена", "конфигурациябазыданныхизмененадинамически",
  "необходимостьзавершениясоединения", "номерсеансаинформационнойбазы", "номерсоединенияинформационнойбазы",
  "обновитьнумерациюобъектов", "обновитьповторноиспользуемыезначения",
  "получитьсеансыинформационнойбазы", "получитьсоединенияинформационнойбазы",
  "получитьчасовойпоясинформационнойбазы", "установитьчасовойпоясинформационнойбазы",
  "получитьминимальнуюдлинупаролейпользователей", "установитьминимальнуюдлинупаролейпользователей",
  "получитьпроверкусложностипаролейпользователей", "установитьпроверкусложностипаролейпользователей",
  "получитьоперативнуюотметкувремени", "получитьданныевыбора",
  "разорватьсоединениесвнешнимисточникомданных", "установитьсоединениесвнешнимисточникомданных",
  "удалитьизвременногохранилища",
  "выгрузитьжурналрегистрации", "получитьзначенияотборажурналарегистрации",
  "получитьиспользованиежурналарегистрации", "получитьиспользованиесобытияжурналарегистрации",
  "представлениесобытияжурналарегистрации", "установитьиспользованиежурналарегистрации",
  "установитьиспользованиесобытияжурналарегистрации",
  "записатьвбезопасноехранилище", "прочитатьизбезопасногохранилища", "удалитьизбезопасногохранилища",
  "запуститьприложение", "командасистемы", "получитьcomобъект", "пользовательос",
  "данныеформывзначение", "значениевданныеформы", "копироватьданныеформы",
  "получитьсоответствиеобъектаиформы", "установитьсоответствиеобъектаиформы",
  "обновитьинтерфейс", "получитьфункциональнуюопцию", "получитьфункциональнуюопциюинтерфейса",
  "получитьпараметрфункциональныхопцийинтерфейса", "установитьпараметрыфункциональныхопцийинтерфейса",
  "выполнитьпроверкуправдоступа", "заблокироватьработупользователя", "запуститьсистему",
  "отключитьобработчикожидания", "отключитьобработчикоповещения",
  "подключитьобработчикожидания", "подключитьобработчикоповещения",
  "параметрдоступа", "полноеимяпользователя", "получитьскоростьклиентскогосоединения",
  "получитьсообщенияпользователю", "представлениеприва", "представлениеприложения",
  "прекратитьработусистемы", "строкасоединенияинформационнойбазы",
  "текущийкодлокализации", "текущийрежимзапуска", "текущийязык",
  "установитьчасовойпояссеанса", "часовойпояссеанса",
  "вычислить", "выполнить", "eval", "спящийрежим", "завершитьработусистемы",
  "имякомпьютера", "имяпользователя", "строка", "формат", "base64значение", "base64строка",
  "получитьобщиймакет", "получитьобщуюформу", "получитьполноеимяпредопределенногозначения",
  "предопределенноезначение", "установитьвнешнююкомпоненту", "подключитьвнешнююкомпоненту",
  "найтипомеченныенаудаление", "найтиссылки", "периодстроки",
  "выполнитьобработкузаданий", "информацияобошибке", "описаниеошибки",
  "местноевремя", "текущаяуниверсальнаядата", "часовойпояс",
  "смещениелетнеговремени", "смещениестандартноговремени",
  "получитьдопустимыекодылокализации", "получитьдопустимыечасовыепояса",
  "представлениекодалокализации", "представлениечасовогопояса",
  "найтиокнопонавигационнойссылке", "перейтипонавигационнойссылке",
  "получитьокна", "получитьпредставлениенавигационнойссылок", "получитьмакетоформления"]

def BUILTINS_EN : List String := [
  "strlen", "strfind", "strgetline", "strsplit", "strconcat", "strreplace", "strtemplate",
  "trimall", "triml", "trimr", "upper", "lower", "title",
  "emptystring", "strcompare", "strlinecount", "number", "format",
  "int", "round", "max", "min", "pow", "sqrt", "log", "exp", "sin", "cos", "tan",
  "date", "year", "month", "day", "hour", "minute", "second", "currentdate",
  "begofyear", "begofmonth", "begofday", "endofyear", "endofmonth", "endofday", "addmonth",
  "type", "typeof", "string", "boolean", "xmltype", "xmlvalue", "xmlstring",
  "message", "alert", "question", "notify", "status",
  "new",
  "isfilled", "fillpropertyvalues",
  "eval", "execute"]

/-- Source builds the sets with `.map(s => s.toLowerCase())`; one entry
(`правоДоступа`) has a capital letter, so the lower-casing is applied
here as well. -/
def lowerStr (s : String) : String := String.mk (s.data.map jsToLower)

def BUILTINS : List String := (BUILTINS_RU ++ BUILTINS_EN).map lowerStr

def KEYWORDS' : List String := KEYWORDS.map lowerStr

def TYPES' : List String := TYPES.map lowerStr

end BSL

namespace BSL

open JsStr

/-- The string/date-literal scan of highlightBSL: starting after the
opening quote, consume up to and including the closing quote; a doubled
quote does not terminate (`if (code[j+1] === quote) { j += 2; continue }`).
Returns the number of characters consumed after the opening quote. -/
def qScan (q : Char) : Str → Nat
  | [] => 0
  -- a single remaining character is always consumed: either it is the
  -- closing quote (j++, break) or an ordinary character before the end
  | [_] => 1
  | c :: c' :: cs =>
    if c = q then (if c' = q then 2 + qScan q cs else 1)
    else 1 + qScan q (c' :: cs)

theorem qScan_le (q : Char) : ∀ s : Str, qScan q s ≤ s.length := by
  intro s
  induction s using qScan.induct q
  all_goals simp_all [qScan]
  all_goals omega

/-- The date-literal test `/^'[0-9]{8}([0-9]{6})?'$/` applied to the
whole extracted literal (quotes included): a quote, 8 or 14 digits, and
a closing quote. -/
def dateLit (s : Str) : Bool :=
  (s.length = 10 ∨ s.length = 16) ∧
  s.head? = some '\'' ∧ s.getLast? = some '\'' ∧
  ((s.drop 1).take (s.length - 2)).all isDig

/-- Characters recognized by the operator branch,
`/[+\-*\/%=<>]/`. -/
def isOpChar (c : Char) : Bool :=
  c = '+' ∨ c = '-' ∨ c = '*' ∨ c = '/' ∨ c = '%' ∨ c = '=' ∨ c = '<' ∨ c = '>'

/-- Whitespace skipped by the context scans of the identifier branch,
`/[ \t\r\n]/`. -/
def ctxWs (c : Char) : Bool :=
  c = ' ' ∨ c = '\t' ∨ c = '\r' ∨ c = '\n'

/-- Is the optional character a decimal digit (JS
`/[0-9]/.test(code[j])`, false for `undefined`)? -/
def isDigO : Option Char → Bool
  | some c => isDig c
  | none => false

/-- Number-literal scan, broken into the stages of the branch body.
`numD0`: position after the optional leading `-`. -/
def numD0 (i : Nat) (c : Char) : Nat := if c = '-' then i + 1 else i

/-- `numD1`: position after the integer part. -/
def numD1 (code : Str) (i : Nat) (c : Char) : Nat :=
  numD0 i c + countWhile isDig (code.drop (numD0 i c))

/-- `numD2`: position after the optional `. digits` decimal part. -/
def numD2 (code : Str) (i : Nat) (c : Char) : Nat :=
  if code[numD1 code i c]? = some '.' ∧ isDigO (code[numD1 code i c + 1]?) then
    (numD1 code i c + 1) + countWhile isDig (code.drop (numD1 code i c + 1))
  else numD1 code i c

/-- Start of the exponent digits: after `e`/`E` and an optional sign. -/
def numD3 (code : Str) (i : Nat) (c : Char) : Nat :=
  if code[numD2 code i c + 1]? = some '+' ∨ code[numD2 code i c + 1]? = some '-' then
    numD2 code i c + 2
  else numD2 code i c + 1

/-- End position of the number literal started at `i` (the branch body:
optional `-`, digits, optional `. digits`, optional exponent;
`/[0-9+-]/.test(code[j+1])` is false for `undefined`). -/
def numEnd (code : Str) (i : Nat) (c : Char) : Nat :=
  if (code[numD2 code i c]? = some 'e' ∨ code[numD2 code i c]? = some 'E') ∧
      (isDigO (code[numD2 code i c + 1]?) ∨ code[numD2 code i c + 1]? = some '+' ∨
        code[numD2 code i c + 1]? = some '-') then
    numD3 code i c + countWhile isDig (code.drop (numD3 code i c))
  else numD2 code i c

/-- Classification of an identifier `word` spanning positions
`[i, j)` — the cascade at the end of the identifier branch. -/
def classify (code : Str) (i j : Nat) (word : Str) : Option String :=
  let lw := String.mk (word.map jsToLower)
  -- check if there is a dot IMMEDIATELY before (no whitespace)
  let pre : Str := (code.take i).reverse
  let isAfterDot : Bool := pre.head? = some '.'
  -- skip whitespace backwards, then take the previous word (only when
  -- not immediately after a dot; a dot separated by whitespace is ignored)
  let pre2 := pre.dropWhile ctxWs
  let prevWord : Str :=
    if isAfterDot then []
    else
      match pre2.head? with
      | some c =>
        if c = '.' then []
        else if isWordChar c then ((pre2.takeWhile isWordChar).reverse).map jsToLower
        else []
      | none => []
  -- what comes after this word (skip whitespace): a parenthesis?
  let isBeforeParen : Bool := ((code.drop j).dropWhile ctxWs).head? = some '('
  let allUpper : Bool := word.all (fun c => jsToUpper c = c)
  if UPPERCASE_ONLY_KEYWORDS.contains lw ∧ ¬ isAfterDot ∧ allUpper then
    some "tok-k"
  else if KEYWORDS'.contains lw ∧ ¬ isAfterDot then
    some "tok-k"
  else if TYPES'.contains lw ∧ prevWord = "новый".data then
    some "tok-type"
  else if BUILTINS.contains lw ∧ ¬ isAfterDot ∧
      (lw = "новый" ∨ isBeforeParen) then
    some "tok-builtin"
  else none

/-- Guard of the number branch: the previous emitted character is not a
word character and not `.` or `)` (with `i = 0` the previous character
is the empty string and the guard passes). -/
def numPrevOk (code : Str) (i : Nat) : Bool :=
  if i = 0 then true
  else
    match code[i - 1]? with
    | some p => ¬ isWordChar p ∧ p ≠ '.' ∧ p ≠ ')'
    | none => true

/-- End position of a string/date literal started at `i` with quote `c`. -/
def strEnd (code : Str) (i : Nat) (c : Char) : Nat :=
  i + 1 + qScan c (code.drop (i + 1))

/-- End position of a line comment started at `i`. -/
def comEnd (code : Str) (i : Nat) : Nat :=
  i + 2 + countWhile (fun ch => ch ≠ '\n') (code.drop (i + 2))

/-- End position of a `#`/`&` directive name started at `i` (the scan
consumes the word characters `/[A-Za-z_А-яЁё]/`). -/
def dirEnd (code : Str) (i : Nat) : Nat :=
  i + 1 + countWhile isWordStart (code.drop (i + 1))

/-- End position of an identifier started at `i`. -/
def identEnd (code : Str) (i : Nat) : Nat :=
  i + 1 + countWhile isWordChar (code.drop (i + 1))

/-- End position of an operator started at `i`: multi-character
operators `<=`, `>=`, `<>` are recognized first. -/
def opEnd (code : Str) (i : Nat) (c : Char) : Nat :=
  if (c = '<' ∨ c = '>') ∧ code[i + 1]? = some '=' then i + 2
  else if c = '<' ∧ code[i + 1]? = some '>' then i + 2
  else i + 1

/-- One iteration of the highlightBSL scan loop at position `i` holding
character `c`: the emitted span and the next cursor position. -/
def bslStep (code : Str) (i : Nat) (c : Char) : Tok × Nat :=
  -- strings "..." and dates '...'
  if c = '"' ∨ c = '\'' then
    (⟨i,
      some (if c = '\'' ∧ dateLit (sliceJS code i (strEnd code i c)) then "tok-num" else "tok-str"),
      sliceJS code i (strEnd code i c)⟩, strEnd code i c)
  -- line comments //...
  else if c = '/' ∧ code[i + 1]? = some '/' then
    (⟨i, some "tok-com", sliceJS code i (comEnd code i)⟩, comEnd code i)
  -- preprocessor directives #...
  else if c = '#' then
    (⟨i, some "tok-preproc", sliceJS code i (dirEnd code i)⟩, dirEnd code i)
  -- attributes &...
  else if c = '&' then
    (⟨i, some "tok-attr", sliceJS code i (dirEnd code i)⟩, dirEnd code i)
  -- numbers (falls through to the branches below when the previous
  -- character check fails, exactly like the nested `if` in the source)
  else if (isDig c ∨ (c = '-' ∧ isDigO code[i + 1]?)) ∧ numPrevOk code i then
    (⟨i, some "tok-num", sliceJS code i (numEnd code i c)⟩, numEnd code i c)
  -- identifiers / keywords / types / builtins
  else if isWordStart c then
    (⟨i, classify code i (identEnd code i) (sliceJS code i (identEnd code i)),
      sliceJS code i (identEnd code i)⟩, identEnd code i)
  -- operators
  else if isOpChar c then
    (⟨i, some "tok-op", sliceJS code i (opEnd code i c)⟩, opEnd code i c)
  -- default: any other character, emitted without a class
  else (⟨i, none, [c]⟩, i + 1)

/-- The highlightBSL scan loop (fuelled; every iteration advances the
cursor, so `code.length + 1` units of fuel always suffice). -/
def bslGo (code : Str) : Nat → Nat → List Tok
  | 0, _ => []
  | fuel + 1, i =>
    match code[i]? with
    | none => []
    | some c => (bslStep code i c).1 :: bslGo code fuel (bslStep code i c).2

/-- The span stream produced by `highlightBSL`. -/
def bslSpans (code : Str) : List Tok := bslGo code (code.length + 1) 0

/-- Rendering of one span to HTML, as done at each emission site:
`'<span class="CLS">' + esc(text) + '</span>'`, or bare `esc(text)` for
the class-less default/plain emissions. -/
def spanHTML (t : Tok) : Str :=
  match t.cls with
  | some cls => "<span class=\"".data ++ cls.data ++ "\">".data ++ esc t.src ++ "</span>".data
  | none => esc t.src

/-- `highlightBSL(code)`: the accumulated `out` string. -/
def highlightBSL (code : Str) : Str := (bslSpans code).map spanHTML |>.flatten

end BSL


namespace BSL

open JsStr

theorem getElem?_some_lt {code : Str} {i : Nat} {c : Char}
    (h : code[i]? = some c) : i < code.length := by
  by_contra hge
  rw [List.getElem?_eq_none (by omega)] at h
  exact Option.noConfusion h

theorem drop_cons_of_getElem? {code : Str} {i : Nat} {c : Char}
    (h : code[i]? = some c) : code.drop i = c :: code.drop (i + 1) := by
  have hlt : i < code.length := getElem?_some_lt h
  rw [List.drop_eq_getElem_cons hlt]
  rw [List.getElem?_eq_getElem hlt] at h
  simp at h
  rw [h]

theorem countWhile_head {p : Char → Bool} {code : Str} {i : Nat} {c : Char}
    (h : code[i]? = some c) (hp : p c) :
    1 ≤ countWhile p (code.drop i) := by
  rw [drop_cons_of_getElem? h]
  simp [countWhile, hp]

theorem sliceJS_one {code : Str} {i : Nat} {c : Char} (h : code[i]? = some c) :
    sliceJS code i (i + 1) = [c] := by
  simp [sliceJS, drop_cons_of_getElem? h]

theorem numD0_le {i : Nat} {c : Char} : i ≤ numD0 i c := by
  unfold numD0
  split <;> omega

theorem numD1_le {code : Str} {i : Nat} {c : Char} : numD0 i c ≤ numD1 code i c := by
  unfold numD1
  omega

theorem numD2_le {code : Str} {i : Nat} {c : Char} : numD1 code i c ≤ numD2 code i c := by
  unfold numD2
  split <;> omega

theorem numEnd_le {code : Str} {i : Nat} {c : Char} : numD2 code i c ≤ numEnd code i c := by
  unfold numEnd numD3
  split
  · split <;> omega
  · omega

theorem numEnd_progress {code : Str} {i : Nat} {c : Char}
    (h : code[i]? = some c) (hc : isDig c ∨ c = '-') :
    i < numEnd code i c := by
  have h2 := @numD2_le code i c
  have h3 := @numEnd_le code i c
  rcases Decidable.em (c = '-') with hm | hm
  · have h0 : i < numD0 i c := by simp [numD0, hm]
    have h1 := @numD1_le code i c
    omega
  · have hd : isDig c := by tauto
    have h0 : numD0 i c = i := by simp [numD0, hm]
    have h1 : i + 1 ≤ numD1 code i c := by
      have := countWhile_head h hd
      unfold numD1
      rw [h0]
      omega
    omega

theorem bslStep_progress {code : Str} {i : Nat} {c : Char}
    (h : code[i]? = some c) :
    i < (bslStep code i c).2 := by
  have hs : i < strEnd code i c := by
    simp only [strEnd]
    omega
  have hcm : i < comEnd code i := by
    simp only [comEnd]
    omega
  have hd : i < dirEnd code i := by
    simp only [dirEnd]
    omega
  have hid : i < identEnd code i := by
    simp only [identEnd]
    omega
  have hop : i < opEnd code i c := by
    simp only [opEnd]
    split_ifs <;> omega
  unfold bslStep
  split_ifs <;> dsimp only <;>
    first
      | omega
      | exact hs
      | exact hcm
      | exact hd
      | exact hid
      | exact hop
      | exact numEnd_progress h (by tauto)

theorem bslStep_src {code : Str} {i : Nat} {c : Char}
    (h : code[i]? = some c) :
    (bslStep code i c).1.src = sliceJS code i (bslStep code i c).2 := by
  unfold bslStep
  split_ifs
  all_goals dsimp only
  all_goals first
    | rfl
    | exact (sliceJS_one h).symm

theorem bslGo_cov (code : Str) :
    ∀ fuel i, code.length ≤ i + fuel →
      srcConcat (bslGo code fuel i) = code.drop i := by
  intro fuel
  induction fuel with
  | zero =>
    intro i hi
    rw [List.drop_eq_nil_of_le (by omega)]
    simp [bslGo, srcConcat]
  | succ fuel ih =>
    intro i hi
    match hg : code[i]? with
    | none =>
      have hlen : code.length ≤ i := by
        by_contra hlt
        rw [List.getElem?_eq_getElem (by omega)] at hg
        exact Option.noConfusion hg
      rw [List.drop_eq_nil_of_le hlen]
      simp [bslGo, hg, srcConcat]
    | some c =>
      have hprog := @bslStep_progress code i c hg
      have hsrc := @bslStep_src code i c hg
      have hrec := ih (bslStep code i c).2 (by omega)
      simp only [bslGo, hg, srcConcat, List.map_cons, List.flatten_cons]
      rw [hsrc]
      show sliceJS code i (bslStep code i c).2 ++ srcConcat (bslGo code fuel (bslStep code i c).2)
        = code.drop i
      rw [hrec, sliceJS_append_drop code i (bslStep code i c).2 (by omega)]

/-- The span-coverage invariant for `highlightBSL`: concatenating the
un-escaped source text of the emitted spans gives back the input. -/
theorem bslSpans_cov (code : Str) : srcConcat (bslSpans code) = code := by
  have := bslGo_cov code (code.length + 1) 0 (by omega)
  simpa [bslSpans] using this

end BSL

namespace BSL

open JsStr

theorem take_reverse_head {code : Str} {i : Nat} (hi : i ≤ code.length) :
    ((code.take i).reverse).head? = if i = 0 then none else code[i - 1]? := by
  rw [List.head?_reverse, List.getLast?_eq_getElem?]
  have hlen : (code.take i).length = i := by
    simp
    omega
  rw [hlen, List.getElem?_take]
  rcases Nat.eq_zero_or_pos i with h0 | hpos
  · simp [h0]
  · rw [if_pos (by omega), if_neg (by omega)]

theorem classify_afterDot {code : Str} {i j : Nat} {w : Str}
    (hdot : ((code.take i).reverse).head? = some '.') :
    classify code i j w = none := by
  simp [classify, hdot]

theorem bslStep_no_dot {code : Str} {i : Nat} {c : Char} {x : String}
    (hc : (bslStep code i c).1.cls = some x)
    (hx : x = "tok-k" ∨ x = "tok-type" ∨ x = "tok-builtin")
    (hdot : ((code.take i).reverse).head? = some '.') : False := by
  revert hc
  unfold bslStep
  split_ifs
  all_goals try dsimp only
  all_goals intro hc
  -- the identifier branch: classification after a dot is always `none`
  all_goals first
    | exact hc
    | exact Option.noConfusion hc
    | exact Option.noConfusion (classify_afterDot (j := identEnd code i)
        (w := sliceJS code i (identEnd code i)) hdot ▸ hc)
    | (injection hc with hc'
       subst hc'
       rcases hx with h | h | h
       all_goals revert h
       all_goals decide)

theorem bslStep_start {code : Str} {i : Nat} {c : Char} :
    (bslStep code i c).1.start = i := by
  unfold bslStep
  split_ifs
  all_goals rfl

theorem bslGo_mem_no_dot (code : Str) :
    ∀ fuel i tok, tok ∈ bslGo code fuel i →
      (tok.cls = some "tok-k" ∨ tok.cls = some "tok-type" ∨ tok.cls = some "tok-builtin") →
      ¬ (0 < tok.start ∧ code[tok.start - 1]? = some '.') := by
  intro fuel
  induction fuel with
  | zero =>
    intro i tok hmem
    simp [bslGo] at hmem
  | succ fuel ih =>
    intro i tok hmem hcls hdot
    match hg : code[i]? with
    | none =>
      simp only [bslGo, hg] at hmem
      simp at hmem
    | some c =>
      simp only [bslGo, hg] at hmem
      rcases List.mem_cons.mp hmem with hhead | htail
      · subst hhead
        have hi : i < code.length := getElem?_some_lt hg
        rw [bslStep_start] at hdot
        have hrev : ((code.take i).reverse).head? = some '.' := by
          rw [take_reverse_head (by omega), if_neg (by omega)]
          exact hdot.2
        rcases hcls with h | h | h
        · exact bslStep_no_dot h (Or.inl rfl) hrev
        · exact bslStep_no_dot h (Or.inr (Or.inl rfl)) hrev
        · exact bslStep_no_dot h (Or.inr (Or.inr rfl)) hrev
      · exact ih _ tok htail hcls hdot

end BSL

namespace XML

open JsStr

/-- A highlighter emission of xml.js: CSS class (`none` = plain escaped
character) and un-escaped source text.  Positions are not tracked; the
claims about this tokenizer only concern coverage and termination. -/
abbrev XSpan := Option String × Str

/-- Concatenation of the un-escaped source text of the spans. -/
def xsrc (l : List XSpan) : Str := (l.map Prod.snd).flatten

/-- `esc` from xml.js (same three sequential replaces as in the BSL
highlighter). -/
def esc (s : Str) : Str :=
  replaceCharAll '>' ['&', 'g', 't', ';']
    (replaceCharAll '<' ['&', 'l', 't', ';']
      (replaceCharAll '&' ['&', 'a', 'm', 'p', ';'] s))

/-- Tag-name and attribute-name characters, `/[a-zA-Z0-9:._-]/`. -/
def tagNameChar (c : Char) : Bool :=
  ('a' ≤ c ∧ c ≤ 'z') ∨ ('A' ≤ c ∧ c ≤ 'Z') ∨ ('0' ≤ c ∧ c ≤ '9') ∨
  c = ':' ∨ c = '.' ∨ c = '_' ∨ c = '-'

/-- The tag-branch guard `/[a-zA-Z/]/.test(code[i+1])`.  When `i + 1` is
out of range, JS coerces `undefined` to the string "undefined", which
contains letters, so the test is TRUE for the end of input. -/
def isTagIntro : Option Char → Bool
  | some c => ('a' ≤ c ∧ c ≤ 'z') ∨ ('A' ≤ c ∧ c ≤ 'Z') ∨ c = '/'
  | none => true

/-- Named-entity characters, `/[a-zA-Z0-9]/`. -/
def alnum (c : Char) : Bool :=
  ('a' ≤ c ∧ c ≤ 'z') ∨ ('A' ≤ c ∧ c ≤ 'Z') ∨ ('0' ≤ c ∧ c ≤ '9')

/-- Hex-entity characters, `/[0-9a-fA-F]/`. -/
def isHexD (c : Char) : Bool :=
  ('0' ≤ c ∧ c ≤ '9') ∨ ('a' ≤ c ∧ c ≤ 'f') ∨ ('A' ≤ c ∧ c ≤ 'F')

/-- `let j = code.indexOf(needle, start); if (j === -1) j = len; else
j += extra` — the comment/CDATA/PI terminator search. -/
def idxEnd (code : Str) (start : Nat) (needle : Str) (extra : Nat) : Nat :=
  match findSub needle (code.drop start) with
  | some k => start + k + extra
  | none => code.length

/-- End of a comment started at `i` (`-->` + 3, or end of input). -/
def cmtEnd (code : Str) (i : Nat) : Nat := idxEnd code (i + 4) "-->".data 3

/-- End of a CDATA section started at `i`. -/
def cdEnd (code : Str) (i : Nat) : Nat := idxEnd code (i + 9) "]]>".data 3

/-- The DOCTYPE balanced-bracket scan: depth starts at 1 and the loop
consumes while `j < len && depth > 0`, incrementing on `<` and
decrementing on `>`. -/
def dtScan : Nat → Str → Nat
  | _, [] => 0
  | depth, c :: cs =>
    if depth = 0 then 0
    else 1 + dtScan (if c = '<' then depth + 1 else if c = '>' then depth - 1 else depth) cs

/-- End of a DOCTYPE declaration started at `i`. -/
def dtEnd (code : Str) (i : Nat) : Nat := i + 9 + dtScan 1 (code.drop (i + 9))

/-- End of a processing instruction started at `i`. -/
def piEnd (code : Str) (i : Nat) : Nat := idxEnd code (i + 2) "?>".data 2

/-- `/^<\?xml\s/i` applied to the PI text. -/
def piDecl (pi : Str) : Bool :=
  match pi with
  | a :: b :: c :: d :: e :: f :: _ =>
    a = '<' ∧ b = '?' ∧ jsToLower c = 'x' ∧ jsToLower d = 'm' ∧ jsToLower e = 'l' ∧ jsWs f
  | _ => false

/-- End of the entity-name scan started at `i` (position of the expected
`;`). -/
def entEnd (code : Str) (i : Nat) : Nat :=
  if code[i + 1]? = some '#' then
    if code[i + 2]? = some 'x' ∨ code[i + 2]? = some 'X' then
      i + 3 + countWhile isHexD (code.drop (i + 3))
    else i + 2 + countWhile isDig (code.drop (i + 2))
  else i + 1 + countWhile alnum (code.drop (i + 1))

/-- End of a quoted attribute value started at `j` (`while (k < len &&
code[k] !== quote) k++; if (k < len) k++`). -/
def valEnd (code : Str) (j : Nat) (q : Char) : Nat :=
  if j + 1 + countWhile (fun ch => ch ≠ q) (code.drop (j + 1)) < code.length then
    j + 1 + countWhile (fun ch => ch ≠ q) (code.drop (j + 1)) + 1
  else j + 1 + countWhile (fun ch => ch ≠ q) (code.drop (j + 1))

/-- Whitespace characters emitted one at a time (`out += esc(code[j])`)
by the skip loops of the tag branch. -/
def wsSpans (code : Str) (j : Nat) : List XSpan :=
  ((code.drop j).takeWhile jsWs).map (fun ch => (none, [ch]))

/-- End of a whitespace skip started at `j`. -/
def wsEnd (code : Str) (j : Nat) : Nat := j + countWhile jsWs (code.drop j)

/-- The `=`-and-value part of one attribute-loop iteration, starting at
the position after the attribute name and following whitespace. -/
def eqPart (code : Str) (j2 : Nat) : List XSpan × Nat :=
  if code[j2]? = some '=' then
    if code[wsEnd code (j2 + 1)]? = some '"' then
      ((none, ['=']) :: wsSpans code (j2 + 1) ++
        [(some "tok-xml-val", sliceJS code (wsEnd code (j2 + 1)) (valEnd code (wsEnd code (j2 + 1)) '"'))],
        valEnd code (wsEnd code (j2 + 1)) '"')
    else if code[wsEnd code (j2 + 1)]? = some '\'' then
      ((none, ['=']) :: wsSpans code (j2 + 1) ++
        [(some "tok-xml-val", sliceJS code (wsEnd code (j2 + 1)) (valEnd code (wsEnd code (j2 + 1)) '\''))],
        valEnd code (wsEnd code (j2 + 1)) '\'')
    else ((none, ['=']) :: wsSpans code (j2 + 1), wsEnd code (j2 + 1))
  else ([], j2)

/-- The attribute-loop guard
`j < len && code[j] !== ">" && !(code[j] === "/" && code[j+1] === ">")`. -/
def attrCond (code : Str) (j : Nat) : Bool :=
  j < code.length ∧ code[j]? ≠ some '>' ∧
  ¬ (code[j]? = some '/' ∧ code[j + 1]? = some '>')

/-- The body of one attribute-loop iteration: attribute name (wrapped
only when nonempty), whitespace, optional `= value`, whitespace. -/
def attrStep (code : Str) (j : Nat) : List XSpan × Nat :=
  (
    (if 0 < countWhile tagNameChar (code.drop j) then
      [(some "tok-xml-attr", sliceJS code j (j + countWhile tagNameChar (code.drop j)))]
    else []) ++
    wsSpans code (j + countWhile tagNameChar (code.drop j)) ++
    (eqPart code (wsEnd code (j + countWhile tagNameChar (code.drop j)))).1 ++
    wsSpans code (eqPart code (wsEnd code (j + countWhile tagNameChar (code.drop j)))).2,
    wsEnd code (eqPart code (wsEnd code (j + countWhile tagNameChar (code.drop j)))).2)

/-- The attribute loop.  This is the loop of xml.js that need not make
progress: when `attrStep` does not advance `j` the recursion only
consumes fuel, and the function yields `none` for every fuel value. -/
def xmlAttrs (code : Str) : Nat → Nat → Option (List XSpan × Nat)
  | 0, _ => none
  | fuel + 1, j =>
    if attrCond code j then
      match xmlAttrs code fuel (attrStep code j).2 with
      | none => none
      | some (rest, jf) => some ((attrStep code j).1 ++ rest, jf)
    else some ([], j)

/-- The closing `/>` or `>` of a tag (or nothing, at end of input or on
a stray character). -/
def closePart (code : Str) (jf : Nat) : List XSpan × Nat :=
  if code[jf]? = some '/' ∧ code[jf + 1]? = some '>' then
    ([(some "tok-xml-tag", ['/', '>'])], jf + 2)
  else if code[jf]? = some '>' then
    ([(some "tok-xml-tag", ['>'])], jf + 1)
  else ([], jf)

/-- Whether the tag at `i` is a closing tag (`</...`). -/
def isClosing (code : Str) (i : Nat) : Bool := code[i + 1]? = some '/'

/-- Start of the tag name. -/
def tagNameStart (code : Str) (i : Nat) : Nat :=
  if isClosing code i then i + 2 else i + 1

/-- End of the tag name. -/
def tagNameEnd (code : Str) (i : Nat) : Nat :=
  tagNameStart code i + countWhile tagNameChar (code.drop (tagNameStart code i))

/-- The first span of a tag: `esc("<" + (isClosing ? "/" : "") +
tagName)` wrapped in the tag class. -/
def tagOpenSpan (code : Str) (i : Nat) : XSpan :=
  (some "tok-xml-tag",
    '<' :: (if isClosing code i then ['/'] else []) ++
      sliceJS code (tagNameStart code i) (tagNameEnd code i))

/-- The whole tag branch (opening bracket + name, whitespace, attribute
loop for non-closing tags, closing bracket). -/
def tagStep (code : Str) (fuel i : Nat) : Option (List XSpan × Nat) :=
  match (if isClosing code i then some ([], wsEnd code (tagNameEnd code i))
         else xmlAttrs code fuel (wsEnd code (tagNameEnd code i))) with
  | none => none
  | some (asp, jf) =>
    some (tagOpenSpan code i :: wsSpans code (tagNameEnd code i) ++ asp ++ (closePart code jf).1,
      (closePart code jf).2)

/-- One iteration of the highlightXML scan loop at position `i` holding
character `c` (branch order as in the source: comment, CDATA, DOCTYPE,
PI, tag, entity, default). -/
def xmlStep (code : Str) (fuel i : Nat) (c : Char) : Option (List XSpan × Nat) :=
  if c = '<' ∧ sliceJS code i (i + 4) = "<!--".data then
    some ([(some "tok-com", sliceJS code i (cmtEnd code i))], cmtEnd code i)
  else if c = '<' ∧ sliceJS code i (i + 9) = "<![CDATA[".data then
    some ([(some "tok-xml-cdata", sliceJS code i (cdEnd code i))], cdEnd code i)
  else if c = '<' ∧ (sliceJS code i (i + 9)).map asciiUpper = "<!DOCTYPE".data then
    some ([(some "tok-xml-doctype", sliceJS code i (dtEnd code i))], dtEnd code i)
  else if c = '<' ∧ code[i + 1]? = some '?' then
    some ([(some (if piDecl (sliceJS code i (piEnd code i)) then "tok-xml-decl" else "tok-xml-pi"),
      sliceJS code i (piEnd code i))], piEnd code i)
  else if c = '<' ∧ isTagIntro code[i + 1]? then
    tagStep code fuel i
  else if c = '&' ∧ code[entEnd code i]? = some ';' then
    some ([(some "tok-xml-entity", sliceJS code i (entEnd code i + 1))], entEnd code i + 1)
  else
    some ([(none, [c])], i + 1)

/-- The highlightXML scan loop.  `none` means the fuel ran out — for a
fixed input, `none` for every fuel value means the original loop never
terminates. -/
def xmlGo (code : Str) : Nat → Nat → Option (List XSpan)
  | 0, _ => none
  | fuel + 1, i =>
    match code[i]? with
    | none => some []
    | some c =>
      match xmlStep code fuel i c with
      | none => none
      | some (sp, j) =>
        match xmlGo code fuel j with
        | none => none
        | some rest => some (sp ++ rest)

/-- The span stream of `highlightXML(code)` under a given fuel. -/
def xmlSpans (code : Str) (fuel : Nat) : Option (List XSpan) := xmlGo code fuel 0

/-- Rendering of one span to HTML (`/&gt;` and `&gt;` are the escapes of
their source texts, so every emission site has this shape). -/
def xspanHTML (s : XSpan) : Str :=
  match s.1 with
  | some cls => "<span class=\"".data ++ cls.data ++ "\">".data ++ esc s.2 ++ "</span>".data
  | none => esc s.2

/-- `highlightXML(code)`: the accumulated `out` string (under fuel). -/
def highlightXML (code : Str) (fuel : Nat) : Option Str :=
  (xmlSpans code fuel).map (fun l => (l.map xspanHTML).flatten)

end XML

namespace JsStr

theorem takeWhile_eq_take_countWhile (p : Char → Bool) :
    ∀ l : Str, l.takeWhile p = l.take (countWhile p l) := by
  intro l
  induction l with
  | nil => simp [countWhile]
  | cons c cs ih =>
    by_cases h : p c
    · simp [List.takeWhile_cons, countWhile, h, ih]
    · simp [List.takeWhile_cons, countWhile, h]

theorem sliceJS_nil (s : Str) (i : Nat) : sliceJS s i i = [] := by
  simp [sliceJS]

theorem sliceJS_cons {code : Str} {i j : Nat} {c : Char}
    (h : code[i]? = some c) (hij : i < j) :
    sliceJS code i j = c :: sliceJS code (i + 1) j := by
  have hd : code.drop i = c :: code.drop (i + 1) := BSL.drop_cons_of_getElem? h
  have : j - i = (j - (i + 1)) + 1 := by omega
  rw [sliceJS, hd, this, List.take_succ_cons, sliceJS]

theorem sliceJS_comp (code : Str) {a b c : Nat} (hab : a ≤ b) (hbc : b ≤ c) :
    sliceJS code a b ++ sliceJS code b c = sliceJS code a c := by
  have h1 : code.drop b = (code.drop a).drop (b - a) := by
    rw [List.drop_drop]
    congr 1
    omega
  have h2 : c - a = (b - a) + (c - b) := by omega
  rw [sliceJS, sliceJS, sliceJS, h1, h2, List.take_add]

theorem sliceJS_countWhile (code : Str) (p : Char → Bool) (j : Nat) :
    sliceJS code j (j + countWhile p (code.drop j)) = (code.drop j).takeWhile p := by
  rw [takeWhile_eq_take_countWhile, sliceJS]
  congr 1
  omega

end JsStr

namespace XML

open JsStr

theorem xsrc_append (a b : List XSpan) : xsrc (a ++ b) = xsrc a ++ xsrc b := by
  simp [xsrc]

theorem xsrc_wsSpans (code : Str) (j : Nat) :
    xsrc (wsSpans code j) = sliceJS code j (wsEnd code j) := by
  rw [wsSpans, wsEnd, sliceJS_countWhile]
  induction (code.drop j).takeWhile jsWs with
  | nil => simp [xsrc]
  | cons c cs ih => simp_all [xsrc]

theorem wsEnd_le (code : Str) (j : Nat) : j ≤ wsEnd code j := by
  simp [wsEnd]

theorem valEnd_le (code : Str) (j : Nat) (q : Char) : j ≤ valEnd code j q := by
  unfold valEnd
  split <;> omega

theorem xsrc_cons (a : XSpan) (l : List XSpan) : xsrc (a :: l) = a.2 ++ xsrc l := by
  simp [xsrc]

theorem eqPart_cov (code : Str) (j2 : Nat) :
    xsrc (eqPart code j2).1 = sliceJS code j2 (eqPart code j2).2 ∧
      j2 ≤ (eqPart code j2).2 := by
  have hws := xsrc_wsSpans code (j2 + 1)
  have hwsle := wsEnd_le code (j2 + 1)
  unfold eqPart
  split_ifs with h1 h2 h3
  all_goals dsimp only
  · have hvle := valEnd_le code (wsEnd code (j2 + 1)) '"'
    refine ⟨?_, by omega⟩
    have hval : xsrc [((some "tok-xml-val" : Option String),
        sliceJS code (wsEnd code (j2 + 1)) (valEnd code (wsEnd code (j2 + 1)) '"'))] =
        sliceJS code (wsEnd code (j2 + 1)) (valEnd code (wsEnd code (j2 + 1)) '"') := by
      simp [xsrc]
    rw [xsrc_append, xsrc_cons, hws, hval, ← BSL.sliceJS_one h1,
      sliceJS_comp code (by omega) hwsle,
      sliceJS_comp code (by omega) hvle]
  · have hvle := valEnd_le code (wsEnd code (j2 + 1)) '\''
    refine ⟨?_, by omega⟩
    have hval : xsrc [((some "tok-xml-val" : Option String),
        sliceJS code (wsEnd code (j2 + 1)) (valEnd code (wsEnd code (j2 + 1)) '\''))] =
        sliceJS code (wsEnd code (j2 + 1)) (valEnd code (wsEnd code (j2 + 1)) '\'') := by
      simp [xsrc]
    rw [xsrc_append, xsrc_cons, hws, hval, ← BSL.sliceJS_one h1,
      sliceJS_comp code (by omega) hwsle,
      sliceJS_comp code (by omega) hvle]
  · refine ⟨?_, by omega⟩
    rw [xsrc_cons, hws, ← BSL.sliceJS_one h1,
      sliceJS_comp code (by omega) hwsle]
  · exact ⟨(sliceJS_nil code j2).symm, le_refl j2⟩

end XML

namespace XML

open JsStr

theorem attrStep_cov (code : Str) (j : Nat) :
    xsrc (attrStep code j).1 = sliceJS code j (attrStep code j).2 ∧
      j ≤ (attrStep code j).2 := by
  have hname : xsrc (if 0 < countWhile tagNameChar (code.drop j) then
      [((some "tok-xml-attr" : Option String), sliceJS code j (j + countWhile tagNameChar (code.drop j)))]
    else []) = sliceJS code j (j + countWhile tagNameChar (code.drop j)) := by
    split_ifs with h
    · simp [xsrc]
    · have h0 : countWhile tagNameChar (code.drop j) = 0 := by omega
      simp [xsrc, h0, sliceJS_nil]
  have hws1 := xsrc_wsSpans code (j + countWhile tagNameChar (code.drop j))
  have hws1le := wsEnd_le code (j + countWhile tagNameChar (code.drop j))
  have heq := eqPart_cov code (wsEnd code (j + countWhile tagNameChar (code.drop j)))
  have hws3 := xsrc_wsSpans code (eqPart code (wsEnd code (j + countWhile tagNameChar (code.drop j)))).2
  have hws3le := wsEnd_le code (eqPart code (wsEnd code (j + countWhile tagNameChar (code.drop j)))).2
  unfold attrStep
  dsimp only
  constructor
  · rw [xsrc_append, xsrc_append, xsrc_append, hname, hws1, heq.1, hws3,
      sliceJS_comp code (by omega) hws1le]
    rw [sliceJS_comp code (by omega) heq.2]
    rw [sliceJS_comp code (by omega) hws3le]
  · omega

theorem xmlAttrs_cov (code : Str) :
    ∀ fuel j sp jf, xmlAttrs code fuel j = some (sp, jf) →
      xsrc sp = sliceJS code j jf ∧ j ≤ jf := by
  intro fuel
  induction fuel with
  | zero =>
    intro j sp jf h
    simp [xmlAttrs] at h
  | succ fuel ih =>
    intro j sp jf h
    rw [xmlAttrs] at h
    split_ifs at h with hc
    · match hrec : xmlAttrs code fuel (attrStep code j).2 with
      | none =>
        rw [hrec] at h
        exact Option.noConfusion h
      | some (rest, jf') =>
        rw [hrec] at h
        injection h with h'
        injection h' with h1 h2
        subst h1
        subst h2
        have hstep := attrStep_cov code j
        have hr := ih _ _ _ hrec
        constructor
        · rw [xsrc_append, hstep.1, hr.1,
            sliceJS_comp code hstep.2 hr.2]
        · omega
    · injection h with h'
      injection h' with h1 h2
      subst h1
      subst h2
      exact ⟨(sliceJS_nil code j).symm, le_refl j⟩

theorem closePart_cov (code : Str) (jf : Nat) :
    xsrc (closePart code jf).1 = sliceJS code jf (closePart code jf).2 ∧
      jf ≤ (closePart code jf).2 := by
  unfold closePart
  split_ifs with h1 h2
  all_goals dsimp only
  · refine ⟨?_, by omega⟩
    rw [sliceJS_cons h1.1 (by omega), sliceJS_cons h1.2 (by omega), sliceJS_nil]
    simp [xsrc]
  · refine ⟨?_, by omega⟩
    rw [sliceJS_cons h2 (by omega), sliceJS_nil]
    simp [xsrc]
  · exact ⟨(sliceJS_nil code jf).symm, le_refl jf⟩

theorem tagNameStart_le {code : Str} {i : Nat} : i + 1 ≤ tagNameStart code i := by
  unfold tagNameStart
  split <;> omega

theorem tagNameEnd_le {code : Str} {i : Nat} : tagNameStart code i ≤ tagNameEnd code i := by
  unfold tagNameEnd
  omega

theorem tagOpenSpan_src {code : Str} {i : Nat} (h : code[i]? = some '<') :
    (tagOpenSpan code i).2 = sliceJS code i (tagNameEnd code i) := by
  unfold tagOpenSpan
  dsimp only
  by_cases hcl : isClosing code i
  · have hsl : code[i + 1]? = some '/' := by
      unfold isClosing at hcl
      simpa using hcl
    have hst : tagNameStart code i = i + 2 := by
      simp [tagNameStart, hcl]
    have hte := @tagNameEnd_le code i
    rw [sliceJS_cons h (by omega), sliceJS_cons hsl (by omega)]
    simp only [hcl, if_true]
    unfold tagNameEnd
    rw [hst]
    simp
  · have hst : tagNameStart code i = i + 1 := by
      simp [tagNameStart, hcl]
    have hte := @tagNameEnd_le code i
    rw [sliceJS_cons h (by omega)]
    simp only [hcl, if_false]
    unfold tagNameEnd
    rw [hst]
    simp

theorem tagStep_cov (code : Str) (fuel i : Nat) (h : code[i]? = some '<') :
    ∀ sp j, tagStep code fuel i = some (sp, j) →
      xsrc sp = sliceJS code i j ∧ i < j := by
  intro sp j hstep
  unfold tagStep at hstep
  have hts := @tagNameStart_le code i
  have hte := @tagNameEnd_le code i
  have hwsle := wsEnd_le code (tagNameEnd code i)
  have hopen := @tagOpenSpan_src code i h
  have hws := xsrc_wsSpans code (tagNameEnd code i)
  by_cases hcl : isClosing code i
  · simp only [hcl, if_true] at hstep
    injection hstep with h'
    injection h' with h1 h2
    subst h1
    subst h2
    have hcp := closePart_cov code (wsEnd code (tagNameEnd code i))
    constructor
    · rw [xsrc_append, xsrc_append, xsrc_cons, hopen, hws, hcp.1]
      simp only [xsrc, List.map_nil, List.flatten_nil, List.append_nil, List.append_assoc]
      rw [sliceJS_comp code hwsle hcp.2, sliceJS_comp code (by omega) (by omega)]
    · omega
  · simp only [hcl, if_false] at hstep
    match hattr : xmlAttrs code fuel (wsEnd code (tagNameEnd code i)) with
    | none =>
      rw [hattr] at hstep
      exact Option.noConfusion hstep
    | some (asp, jf) =>
      rw [hattr] at hstep
      injection hstep with h'
      injection h' with h1 h2
      subst h1
      subst h2
      have hac := xmlAttrs_cov code fuel _ _ _ hattr
      have hcp := closePart_cov code jf
      constructor
      · rw [xsrc_append, xsrc_append, xsrc_cons, hopen, hws, hac.1, hcp.1,
          List.append_assoc, List.append_assoc]
        rw [sliceJS_comp code hac.2 hcp.2]
        rw [sliceJS_comp code hwsle (by omega)]
        rw [sliceJS_comp code (by omega) (by omega)]
      · omega

end XML

namespace XML

open JsStr

theorem idxEnd_progress {code : Str} {i : Nat} (hlen : i < code.length)
    (start : Nat) (needle : Str) (extra : Nat) (hs : i < start) :
    i < idxEnd code start needle extra := by
  cases hf : findSub needle (code.drop start) with
  | none =>
    unfold idxEnd
    rw [hf]
    dsimp only
    omega
  | some k =>
    unfold idxEnd
    rw [hf]
    dsimp only
    omega

theorem entEnd_progress (code : Str) (i : Nat) : i + 1 ≤ entEnd code i := by
  unfold entEnd
  split_ifs <;> omega

theorem xmlStep_cov (code : Str) (fuel i : Nat) (c : Char) (h : code[i]? = some c) :
    ∀ sp j, xmlStep code fuel i c = some (sp, j) →
      xsrc sp = sliceJS code i j ∧ i < j := by
  intro sp j hstep
  have hlen : i < code.length := BSL.getElem?_some_lt h
  unfold xmlStep at hstep
  by_cases h1 : c = '<' ∧ sliceJS code i (i + 4) = "<!--".data
  · rw [if_pos h1] at hstep
    injection hstep with h'
    injection h' with ha hb
    subst ha
    subst hb
    exact ⟨by simp [xsrc], idxEnd_progress hlen (i + 4) "-->".data 3 (by omega)⟩
  rw [if_neg h1] at hstep
  by_cases h2 : c = '<' ∧ sliceJS code i (i + 9) = "<![CDATA[".data
  · rw [if_pos h2] at hstep
    injection hstep with h'
    injection h' with ha hb
    subst ha
    subst hb
    exact ⟨by simp [xsrc], idxEnd_progress hlen (i + 9) "]]>".data 3 (by omega)⟩
  rw [if_neg h2] at hstep
  by_cases h3 : c = '<' ∧ (sliceJS code i (i + 9)).map asciiUpper = "<!DOCTYPE".data
  · rw [if_pos h3] at hstep
    injection hstep with h'
    injection h' with ha hb
    subst ha
    subst hb
    refine ⟨by simp [xsrc], ?_⟩
    unfold dtEnd
    omega
  rw [if_neg h3] at hstep
  by_cases h4 : c = '<' ∧ code[i + 1]? = some '?'
  · rw [if_pos h4] at hstep
    injection hstep with h'
    injection h' with ha hb
    subst ha
    subst hb
    exact ⟨by simp [xsrc], idxEnd_progress hlen (i + 2) "?>".data 2 (by omega)⟩
  rw [if_neg h4] at hstep
  by_cases h5 : c = '<' ∧ isTagIntro code[i + 1]? = true
  · rw [if_pos h5] at hstep
    exact tagStep_cov code fuel i (h5.1 ▸ h) sp j hstep
  rw [if_neg h5] at hstep
  by_cases h6 : c = '&' ∧ code[entEnd code i]? = some ';'
  · rw [if_pos h6] at hstep
    injection hstep with h'
    injection h' with ha hb
    subst ha
    subst hb
    have := entEnd_progress code i
    exact ⟨by simp [xsrc], by omega⟩
  rw [if_neg h6] at hstep
  injection hstep with h'
  injection h' with ha hb
  subst ha
  subst hb
  refine ⟨?_, by omega⟩
  rw [xsrc_cons]
  simp [xsrc, BSL.sliceJS_one h]

theorem xmlGo_cov (code : Str) :
    ∀ fuel i toks, xmlGo code fuel i = some toks → xsrc toks = code.drop i := by
  intro fuel
  induction fuel with
  | zero =>
    intro i toks h
    simp [xmlGo] at h
  | succ fuel ih =>
    intro i toks h
    rw [xmlGo] at h
    match hg : code[i]? with
    | none =>
      rw [hg] at h
      injection h with h'
      subst h'
      have hlen : code.length ≤ i := by
        by_contra hlt
        rw [List.getElem?_eq_getElem (by omega)] at hg
        exact Option.noConfusion hg
      rw [List.drop_eq_nil_of_le hlen]
      simp [xsrc]
    | some c =>
      rw [hg] at h
      dsimp only at h
      match hs : xmlStep code fuel i c with
      | none =>
        rw [hs] at h
        exact Option.noConfusion h
      | some (sp, j) =>
        rw [hs] at h
        dsimp only at h
        match hr : xmlGo code fuel j with
        | none =>
          rw [hr] at h
          exact Option.noConfusion h
        | some rest =>
          rw [hr] at h
          injection h with h'
          subst h'
          have hstep := xmlStep_cov code fuel i c hg sp j hs
          have hrec := ih j rest hr
          rw [xsrc_append, hstep.1, hrec,
            sliceJS_append_drop code i j (by omega)]

/-- Coverage for `highlightXML`: whenever the scan completes (any fuel),
the un-escaped span sources concatenate to the input. -/
theorem xmlSpans_cov (code : Str) (fuel : Nat) (toks : List XSpan)
    (h : xmlSpans code fuel = some toks) : xsrc toks = code := by
  have := xmlGo_cov code fuel 0 toks h
  simpa using this

end XML

namespace XML

open JsStr

/-- The malformed tag interior on which the attribute loop of
highlightXML makes no progress: after `<a ` the character `<` is not an
attribute-name character, not whitespace, not `=`, not a quote, and not
the end of the tag, so no branch of the loop body advances `j`. -/
def xmlBad : Str := "<a <".data

theorem xmlAttrs_bad : ∀ fuel, xmlAttrs xmlBad fuel 3 = none := by
  intro fuel
  induction fuel with
  | zero => rfl
  | succ fuel ih =>
    rw [xmlAttrs, if_pos (show attrCond xmlBad 3 = true from rfl)]
    rw [show (attrStep xmlBad 3).2 = 3 from rfl, ih]

theorem tagStep_bad : ∀ fuel, tagStep xmlBad fuel 0 = none := by
  intro fuel
  unfold tagStep
  rw [show wsEnd xmlBad (tagNameEnd xmlBad 0) = 3 from rfl]
  rw [show isClosing xmlBad 0 = false from rfl]
  rw [if_neg (by simp), xmlAttrs_bad fuel]

theorem xmlStep_bad : ∀ fuel, xmlStep xmlBad fuel 0 '<' = none := by
  intro fuel
  have h : xmlStep xmlBad fuel 0 '<' = tagStep xmlBad fuel 0 := rfl
  rw [h, tagStep_bad fuel]

/-- On the input `<a <` the highlightXML scan never completes, whatever
the fuel: the original JavaScript loop runs forever. -/
theorem xmlGo_bad : ∀ fuel, xmlGo xmlBad fuel 0 = none := by
  intro fuel
  cases fuel with
  | zero => rfl
  | succ fuel =>
    rw [xmlGo, show xmlBad[0]? = some '<' from rfl]
    dsimp only
    rw [xmlStep_bad fuel]

theorem xmlSpans_bad (fuel : Nat) : xmlSpans xmlBad fuel = none := xmlGo_bad fuel

end XML

namespace BSL

open JsStr

/-- Case-insensitive prefix match of a pattern word against a text
suffix (JS canonicalisation is one-to-one on the Latin and Cyrillic
letters used in the trigger patterns). -/
def matchCI : Str → Str → Bool
  | [], _ => true
  | _ :: _, [] => false
  | a :: as, b :: bs => jsToLower a = jsToLower b ∧ matchCI as bs

/-- Is the character at position `p` an ASCII word character?  JS `\b`
boundaries are computed from `\w = [A-Za-z0-9_]` only — Cyrillic letters
are NOT word characters, out-of-range is not either. -/
def wordAt (s : Str) (p : Nat) : Bool :=
  match s[p]? with
  | some c => reWordChar c
  | none => false

/-- JS `\b` at position `p`: the wordness of the characters on the two
sides differs (the left side of position 0 counts as non-word). -/
def bAt (s : Str) (p : Nat) : Bool :=
  (if p = 0 then false else wordAt s (p - 1)) ≠ wordAt s p

/-- `/\b(alt1|alt2|...)\b/i.test(text)`. -/
def bTest (alts : List Str) (s : Str) : Bool :=
  (List.range (s.length + 1)).any fun p =>
    alts.any fun w => matchCI w (s.drop p) ∧ bAt s p ∧ bAt s (p + w.length)

/-- `/&\s*(alt1|alt2|...)/i.test(text)` where each alternative already
carries the `На`/`At` prefix: an ampersand, greedy whitespace, then one
of the alternatives. -/
def ampTest (alts : List Str) (s : Str) : Bool :=
  (List.range (s.length + 1)).any fun p =>
    s[p]? = some '&' ∧
      alts.any fun w =>
        matchCI w ((s.drop (p + 1)).drop (countWhile jsWs (s.drop (p + 1))))

/-- `/#(alt1|alt2|...)\b/i.test(text)`. -/
def hashTest (alts : List Str) (s : Str) : Bool :=
  (List.range (s.length + 1)).any fun p =>
    s[p]? = some '#' ∧
      alts.any fun w => matchCI w (s.drop (p + 1)) ∧ bAt s (p + 1 + w.length)

/-- `n` decimal digits at position `p`. -/
def digitsAt (s : Str) (p n : Nat) : Bool :=
  ((s.drop p).take n).length = n ∧ ((s.drop p).take n).all isDig

/-- `/'[0-9]{8}([0-9]{6})?'/.test(text)`: a quote, eight digits, an
optional further six digits, and a quote. -/
def dateTest (s : Str) : Bool :=
  (List.range (s.length + 1)).any fun p =>
    s[p]? = some '\'' ∧ digitsAt s (p + 1) 8 ∧
      ((digitsAt s (p + 9) 6 ∧ s[p + 15]? = some '\'') ∨ s[p + 9]? = some '\'')

/-- `likelyBSL(text)`: the weighted-trigger heuristic (score of at least
2 classifies the text as BSL).  Each regex trigger is translated with
JS `\b` (ASCII word character) semantics. -/
def likelyBSL (text : Str) : Bool :=
  let score :=
    (if bTest ["Процедура".data, "Procedure".data] text then 2 else 0) +
    (if bTest ["Функция".data, "Function".data] text then 2 else 0) +
    (if bTest ["КонецПроцедуры".data, "EndProcedure".data] text then 2 else 0) +
    (if bTest ["КонецФункции".data, "EndFunction".data] text then 2 else 0) +
    (if bTest ["Если".data, "If".data] text ∧ bTest ["Тогда".data, "Then".data] text then 1 else 0) +
    (if bTest ["Для".data, "For".data] text ∧ bTest ["Каждого".data, "Each".data] text then 1 else 0) +
    (if bTest ["Цикл".data, "Do".data] text then 1 else 0) +
    (if bTest ["КонецЦикла".data, "EndDo".data] text then 1 else 0) +
    (if bTest ["Запрос".data, "Query".data] text then 1 else 0) +
    (if bTest ["ТаблицаЗначений".data, "ValueTable".data] text then 1 else 0) +
    (if bTest ["Выборка".data, "Selection".data] text then 1 else 0) +
    (if bTest ["Соответствие".data, "Map".data] text then 1 else 0) +
    (if ampTest ["НаКлиенте".data, "НаСервере".data, "НаСервереВКлиенте".data,
        "НаСервереБезКонтекста".data] text then 2 else 0) +
    (if ampTest ["AtClient".data, "AtServer".data, "AtServerNoContext".data] text then 2 else 0) +
    (if hashTest ["Если".data, "Область".data, "If".data, "Region".data] text then 1 else 0) +
    (if bTest ["Сообщить".data, "Message".data, "ТекущаяДата".data, "CurrentDate".data] text then 1 else 0) +
    (if bTest ["СтрДлина".data, "StrLen".data, "СтрНайти".data, "StrFind".data] text then 1 else 0) +
    (if dateTest text then 1 else 0)
  2 ≤ score

/-- `BSL.highlight(code, lang)`: `null` unless the language tag forces
BSL (`/^(bsl|1c)$/i`) or the heuristic matches.  `lang` is optional and
an empty string is falsy in JS. -/
def langForce (lang : Option String) : Bool :=
  match lang with
  | none => false
  | some l => l.data ≠ [] ∧ (l.data.map jsToLower = "bsl".data ∨ l.data.map jsToLower = "1c".data)

/-- `BSL.highlight`. -/
def highlight (code : Str) (lang : Option String) : Option Str :=
  if ¬ langForce lang ∧ ¬ likelyBSL code then none
  else some (highlightBSL code)

end BSL

namespace JsStr

/-- Generic JS `String.replace(/re/g, ...)` scan: `tr prev s` decides
whether a match starts at the head of `s` (with `prev` the previous
character of the ORIGINAL string, for look-behinds) and returns the
replacement text and the number of characters consumed (≥ 1 for every
pattern in this file).  On a match the scan resumes after the match; on
no match one character is copied.  Fuelled for kernel reduction;
`length + 1` fuel always suffices. -/
def scanRepl (tr : Option Char → Str → Option (Str × Nat)) :
    Nat → Option Char → Str → Str
  | 0, _, s => s
  | fuel + 1, prev, s =>
    match tr prev s with
    | some (rep, k) =>
      rep ++ scanRepl tr fuel
        (match (s.take k).getLast? with
         | some c => some c
         | none => prev)
        (s.drop k)
    | none =>
      match s with
      | [] => []
      | c :: cs => c :: scanRepl tr fuel (some c) cs

/-- Run a global replace over a whole string. -/
def runRepl (tr : Option Char → Str → Option (Str × Nat)) (s : Str) : Str :=
  scanRepl tr (s.length + 1) none s

/-- Split on `\n` (inverse of `joinNl`). -/
def splitOnNl : Str → List Str
  | [] => [[]]
  | c :: cs =>
    if c = '\n' then [] :: splitOnNl cs
    else
      match splitOnNl cs with
      | l :: ls => (c :: l) :: ls
      | [] => [[c]]

/-- `lines.join('\n')`. -/
def joinNl (ls : List Str) : Str := (ls.intersperse ['\n']).flatten

theorem splitOnNl_ne_nil (s : Str) : splitOnNl s ≠ [] := by
  cases s with
  | nil => simp [splitOnNl]
  | cons c cs =>
    simp only [splitOnNl]
    split
    · simp
    · split <;> simp

theorem joinNl_splitOnNl (s : Str) : joinNl (splitOnNl s) = s := by
  induction s with
  | nil => rfl
  | cons c cs ih =>
    by_cases h : c = '\n'
    · subst h
      simp only [splitOnNl, if_pos rfl, joinNl]
      cases hs : splitOnNl cs with
      | nil => exact absurd hs (splitOnNl_ne_nil cs)
      | cons l ls =>
        rw [hs] at ih
        simp only [joinNl] at ih
        simp only [List.intersperse]
        simp [ih]
    · simp only [splitOnNl, if_neg h]
      cases hs : splitOnNl cs with
      | nil => exact absurd hs (splitOnNl_ne_nil cs)
      | cons l ls =>
        rw [hs] at ih
        simp only [joinNl, List.intersperse] at ih ⊢
        cases ls with
        | nil => simp_all
        | cons l2 ls2 => simp_all

end JsStr

namespace Markdown

open JsStr

/-- Mermaid-node bracket classes of the per-line pass. -/
def brkChar (c : Char) : Bool :=
  c = '{' ∨ c = '}' ∨ c = '[' ∨ c = ']' ∨ c = '(' ∨ c = ')'

/-- Lazy `[^{}\[\]()]*?` up to a given closing character: the shortest
bracket-free run ending right before `bad`; `none` when another bracket
or the end of input intervenes. -/
def lazyUntil (bad : Char) : Str → Option (Str × Nat)
  | [] => none
  | c :: cs =>
    if c = bad then some ([], 1)
    else if brkChar c then none
    else (lazyUntil bad cs).map (fun p => (c :: p.1, p.2 + 1))

/-- One bracket-typo fix `/(\w+)OPEN([^{}\[\]()]*?)BAD/g → $1 OPEN $2
GOOD` (the three first-pass fixes of processMermaidBlock). -/
def typoTry (bopen bad good : Char) (_prev : Option Char) (s : Str) :
    Option (Str × Nat) :=
  let w := s.takeWhile reWordChar
  if w.isEmpty then none
  else
    match s[w.length]? with
    | some b =>
      if b = bopen then
        match lazyUntil bad (s.drop (w.length + 1)) with
        | some (ct, n) => some (w ++ bopen :: ct ++ [good], w.length + 1 + n)
        | none => none
      else none
    | none => none

/-- Position just after the last `\r`/`\n` inside `z` (0 when none). -/
def lastNlPos (z : Str) : Nat :=
  z.length - (z.reverse.takeWhile (fun c => c ≠ '\r' ∧ c ≠ '\n')).length

/-- `/(subgraph\s+[^\r\n(]+)\(([^)]+)\)/g → '$1- $2'`.  The two runs
before the parenthesis must split into a nonempty whitespace part and a
nonempty `\r\n`-free part, both of which exclude `(`, so the matched
parenthesis is the first one after `subgraph`; the capture `$1` covers
the whole stretch regardless of the split. -/
def subgraphTry (_prev : Option Char) (s : Str) : Option (Str × Nat) :=
  if "subgraph".data.isPrefixOf s then
    match findSub ['('] (s.drop 8) with
    | none => none
    | some zlen =>
      let z := (s.drop 8).take zlen
      if max 1 (lastNlPos z) ≤ min (countWhile jsWs z) (zlen - 1) ∧ 2 ≤ zlen then
        let inner := (s.drop (8 + zlen + 1)).takeWhile (fun c => c ≠ ')')
        if ¬ inner.isEmpty ∧ (s.drop (8 + zlen + 1))[inner.length]? = some ')' then
          some ("subgraph".data ++ z ++ '-' :: ' ' :: inner,
            8 + zlen + 1 + inner.length + 1)
        else none
      else none
  else none

/-- Unicode lookalike used for nested opening brackets of the same kind
(a nested `{` is kept as-is by the source). -/
def nestedOpenRep (oc : Char) : Char :=
  if oc = '[' then '⦋' else if oc = '{' then '{' else '⦅'

/-- Lookalike for nested closing brackets of the same kind. -/
def nestedCloseRep (cc : Char) : Char :=
  if cc = ']' then '⦌' else if cc = '}' then '}' else '⦆'

/-- The inner bracket scan of the node pass (`parenDepth`/`innerDepth`
loops): consumes up to and including the balancing close, collecting the
interior; characters at depth 0 are not collected. -/
def innerGo (op cl : Char) : Nat → Str → Str × Nat
  | _, [] => ([], 0)
  | depth, c :: cs =>
    let d' := if c = op then depth + 1 else if c = cl then depth - 1 else depth
    if d' = 0 then ([], 1)
    else
      ((innerGo op cl d' cs).1.cons c, (innerGo op cl d' cs).2 + 1)

/-- The node scan: from the opening shape delimiter (depth 0) to its
matching close, replacing nested delimiters with Unicode lookalikes; a
parenthesized group inside a `[` node and a bracketed or parenthesized
group inside a `{` node are rewritten with `⦅⦆`/`⦋⦌`. -/
def nodeGo (oc cc : Char) : Nat → Nat → Str → Str × Nat
  | 0, _, _ => ([], 0)
  | _, _, [] => ([], 0)
  | fuel + 1, depth, c :: cs =>
    if c = oc then
      if depth = 0 then
        ((nodeGo oc cc fuel 1 cs).1.cons c, (nodeGo oc cc fuel 1 cs).2 + 1)
      else
        ((nodeGo oc cc fuel (depth + 1) cs).1.cons (nestedOpenRep oc),
          (nodeGo oc cc fuel (depth + 1) cs).2 + 1)
    else if c = cc then
      if depth = 1 then ([c], 1)
      else
        ((nodeGo oc cc fuel (depth - 1) cs).1.cons (nestedCloseRep cc),
          (nodeGo oc cc fuel (depth - 1) cs).2 + 1)
    else if oc = '[' ∧ c = '(' then
      ('⦅' :: (innerGo '(' ')' 1 cs).1 ++
          '⦆' :: (nodeGo oc cc fuel depth (cs.drop (innerGo '(' ')' 1 cs).2)).1,
        1 + (innerGo '(' ')' 1 cs).2 +
          (nodeGo oc cc fuel depth (cs.drop (innerGo '(' ')' 1 cs).2)).2)
    else if oc = '{' ∧ c = '[' then
      ('⦋' :: (innerGo '[' ']' 1 cs).1 ++
          '⦌' :: (nodeGo oc cc fuel depth (cs.drop (innerGo '[' ']' 1 cs).2)).1,
        1 + (innerGo '[' ']' 1 cs).2 +
          (nodeGo oc cc fuel depth (cs.drop (innerGo '[' ']' 1 cs).2)).2)
    else if oc = '{' ∧ c = '(' then
      ('⦅' :: (innerGo '(' ')' 1 cs).1 ++
          '⦆' :: (nodeGo oc cc fuel depth (cs.drop (innerGo '(' ')' 1 cs).2)).1,
        1 + (innerGo '(' ')' 1 cs).2 +
          (nodeGo oc cc fuel depth (cs.drop (innerGo '(' ')' 1 cs).2)).2)
    else
      ((nodeGo oc cc fuel depth cs).1.cons c, (nodeGo oc cc fuel depth cs).2 + 1)

/-- The per-line loop: a `\w+` run directly followed by `[`, `{` or `(`
starts a node (`/^(\w+)([\[\{\(])/`); its scanned text has `"` replaced
by `″` (U+2033 DOUBLE PRIME); otherwise one character is copied. -/
def lineGo : Nat → Str → Str
  | 0, _ => []
  | _, [] => []
  | fuel + 1, c :: cs =>
    if reWordChar c then
      let w := (c :: cs).takeWhile reWordChar
      match (c :: cs)[w.length]? with
      | some b =>
        if b = '[' ∨ b = '{' ∨ b = '(' then
          let cc := if b = '[' then ']' else if b = '{' then '}' else ')'
          let nt := nodeGo b cc (cs.length + 1) 0 ((c :: cs).drop w.length)
          w ++ replaceCharAll '"' ['″'] nt.1 ++
            lineGo fuel ((c :: cs).drop (w.length + nt.2))
        else c :: lineGo fuel cs
      | none => c :: lineGo fuel cs
    else c :: lineGo fuel cs

/-- One line of the node-fixing pass. -/
def mermaidLine (l : Str) : Str := lineGo (l.length + 1) l

/-- The text transformation of `processMermaidBlock` (the computation of
`fixedCode`; the HTML wrapper and placeholder are handled in `render`).
Order as in the source: trim, three bracket-typo fixes, the subgraph
parenthesis fix, then the line-by-line node pass. -/
def processMermaidFix (code : Str) : Str :=
  joinNl ((splitOnNl
    (runRepl subgraphTry
      (runRepl (typoTry '(' ']' ')')
        (runRepl (typoTry '[' '}' ']')
          (runRepl (typoTry '{' ']' '}')
            (trimJS code)))))).map mermaidLine)

end Markdown

namespace App

open JsStr

/-- Modelled from the spec: the browser `textarea.innerHTML` entity
decoding used at the top of `sanitizeMermaidCode` ("Decode HTML
entities that might have been encoded"); the DOM call is modelled as
decoding the five standard entities that the pipeline itself produces. -/
def decodeTry (_prev : Option Char) (s : Str) : Option (Str × Nat) :=
  if "&amp;".data.isPrefixOf s then some (['&'], 5)
  else if "&lt;".data.isPrefixOf s then some (['<'], 4)
  else if "&gt;".data.isPrefixOf s then some (['>'], 4)
  else if "&quot;".data.isPrefixOf s then some (['"'], 6)
  else if "&#39;".data.isPrefixOf s then some (['\''], 5)
  else none

def decodeEntities (s : Str) : Str := runRepl decodeTry s

/-- The word class of app.js, `[А-Яа-яA-Za-z_0-9]` (the file's literals
are MacRoman-garbled UTF-8 in this copy; the character ranges are
restored per the adjacent comments, e.g. "Массив[j] -> Массив_j"). -/
def cyrWord (c : Char) : Bool :=
  ('А' ≤ c ∧ c ≤ 'Я') ∨ ('а' ≤ c ∧ c ≤ 'я') ∨ reWordChar c

/-- `/<br\s*\/?>/gi → ' '`. -/
def brTry (_prev : Option Char) (s : Str) : Option (Str × Nat) :=
  match s with
  | a :: b :: r :: rest =>
    if jsToLower a = '<' ∧ jsToLower b = 'b' ∧ jsToLower r = 'r' then
      if rest[countWhile jsWs rest]? = some '>' then
        some ([' '], 3 + countWhile jsWs rest + 1)
      else if rest[countWhile jsWs rest]? = some '/' ∧
          rest[countWhile jsWs rest + 1]? = some '>' then
        some ([' '], 3 + countWhile jsWs rest + 2)
      else none
    else none
  | _ => none

/-- `/([А-Яа-яA-Za-z_0-9]+)\[([^\]]+)\]/g → '$1_$2'`. -/
def brackIdxTry (_prev : Option Char) (s : Str) : Option (Str × Nat) :=
  let w := s.takeWhile cyrWord
  if w.isEmpty then none
  else if s[w.length]? = some '[' then
    let inner := (s.drop (w.length + 1)).takeWhile (fun c => c ≠ ']')
    if ¬ inner.isEmpty ∧ (s.drop (w.length + 1))[inner.length]? = some ']' then
      some (w ++ '_' :: inner, w.length + 1 + inner.length + 1)
    else none
  else none

/-- `/([А-Яа-яA-Za-z_0-9]+)\(\)/g → '$1'`. -/
def emptyParTry (_prev : Option Char) (s : Str) : Option (Str × Nat) :=
  let w := s.takeWhile cyrWord
  if w.isEmpty then none
  else if s[w.length]? = some '(' ∧ s[w.length + 1]? = some ')' then
    some (w, w.length + 2)
  else none

/-- `/\s*OP\s*/g → rep` for a literal operator. -/
def cmpTry (op : Str) (rep : Str) (_prev : Option Char) (s : Str) :
    Option (Str × Nat) :=
  let a := countWhile jsWs s
  if op.isPrefixOf (s.drop a) then
    some (rep, a + op.length + countWhile jsWs (s.drop (a + op.length)))
  else none

/-- `/\s+/g → ' '`. -/
def wsColTry (_prev : Option Char) (s : Str) : Option (Str × Nat) :=
  if 0 < countWhile jsWs s then some ([' '], countWhile jsWs s) else none

/-- `/([А-Яа-яA-Za-z_0-9]+)\.([А-Яа-яA-Za-z_0-9]+)/g → '$1_$2'`. -/
def dotJoinTry (_prev : Option Char) (s : Str) : Option (Str × Nat) :=
  let w := s.takeWhile cyrWord
  if w.isEmpty then none
  else if s[w.length]? = some '.' then
    let w2 := (s.drop (w.length + 1)).takeWhile cyrWord
    if w2.isEmpty then none
    else some (w ++ '_' :: w2, w.length + 1 + w2.length)
  else none

/-- The cleanup chain applied to the interior of each `{...}` condition
node (order as in the source: `<br>` removal, bracket indexing, empty
parentheses, the six comparison-operator rewrites, whitespace collapse,
trim).  The comparison replacements use the Unicode lookalikes named in
the source's comments (U+2264, U+2265, U+2039, U+203A, U+2260). -/
def cleanCondition (s : Str) : Str :=
  trimJS (runRepl wsColTry
    (runRepl (cmpTry "==".data " = ".data)
      (runRepl (cmpTry "!=".data (' ' :: '≠' :: [' ']))
        (runRepl (cmpTry ">".data (' ' :: '›' :: [' ']))
          (runRepl (cmpTry "<".data (' ' :: '‹' :: [' ']))
            (runRepl (cmpTry ">=".data (' ' :: '≥' :: [' ']))
              (runRepl (cmpTry "<=".data (' ' :: '≤' :: [' ']))
                (runRepl emptyParTry
                  (runRepl brackIdxTry
                    (runRepl brTry s))))))))))

/-- `/\{([^}]+)\}/g` with the cleanup callback. -/
def braceTry (_prev : Option Char) (s : Str) : Option (Str × Nat) :=
  match s with
  | '{' :: rest =>
    let inner := rest.takeWhile (fun c => c ≠ '}')
    if ¬ inner.isEmpty ∧ rest[inner.length]? = some '}' then
      some ('{' :: cleanCondition inner ++ ['}'], 1 + inner.length + 1)
    else none
  | _ => none

/-- Does a line carry an edge arrow
(`line.includes('-->') || line.includes('--->') || line.includes('-.->')`)? -/
def hasArrow (l : Str) : Bool :=
  hasSub "-->".data l ∨ hasSub "--->".data l ∨ hasSub "-.->".data l

/-- `sanitizeMermaidCode(code)` from app.js: entity decode, quote
removal on arrow lines, condition-node cleanup, global semicolon
removal, global empty-parentheses removal, dot-access join, trim. -/
def sanitizeMermaidCode (code : Str) : Str :=
  trimJS
    (runRepl dotJoinTry
      (runRepl emptyParTry
        (replaceCharAll ';' []
          (runRepl braceTry
            (joinNl ((splitOnNl (decodeEntities code)).map
              (fun l => if hasArrow l then replaceCharAll '"' [] l else l)))))))

end App

namespace Markdown

open JsStr

/-- The diagram sanitization chain applied to a fenced diagram's source:
the text fix of `processMermaidBlock` (markdown.js) followed by
`sanitizeMermaidCode` (app.js, applied at render time to the decoded
`data-mermaid-code` attribute). -/
def mermaidChain (code : Str) : Str :=
  App.sanitizeMermaidCode (processMermaidFix code)

end Markdown

namespace Markdown

open JsStr

/-- `escapeHTML` from markdown.js: five sequential global replaces of
the HTML-significant characters. -/
def escapeHTML (s : Str) : Str :=
  replaceCharAll '\'' "&#39;".data
    (replaceCharAll '"' "&quot;".data
      (replaceCharAll '>' "&gt;".data
        (replaceCharAll '<' "&lt;".data
          (replaceCharAll '&' "&amp;".data s))))

/-- A triple-backtick fence. -/
def fence : Str := [btick, btick, btick]

/-- `[ \t]` (the explicit indent class of the fence-variant regexes). -/
def htChar (c : Char) : Bool := c = ' ' ∨ c = '\t'

/-- Literal-match helper: position after `pat` when it occurs at `p`. -/
def lit (pat : Str) (s : Str) (p : Nat) : Option Nat :=
  if pat.isPrefixOf (s.drop p) then some (p + pat.length) else none

/-- Position after the `[ \t]*` run at `p`. -/
def htR (s : Str) (p : Nat) : Nat := p + countWhile htChar (s.drop p)

/-- `\r?\n` at `p`. -/
def nlP (s : Str) (p : Nat) : Option Nat :=
  if s[p]? = some '\n' then some (p + 1)
  else if s[p]? = some '\r' ∧ s[p + 1]? = some '\n' then some (p + 2)
  else none

/-- Lazy `[\s\S]*?` up to a parsed suffix: the shortest split whose
remainder starts with the suffix; returns the content and the total
length (content + suffix). -/
def lazyScan (pSuf : Str → Option Nat) : Str → Option (Str × Nat)
  | [] =>
    match pSuf [] with
    | some n => some ([], n)
    | none => none
  | c :: cs =>
    match pSuf (c :: cs) with
    | some n => some ([], n)
    | none => (lazyScan pSuf cs).map (fun p => (c :: p.1, p.2 + 1))

/-- Variant 0a: remove completely empty code blocks,
`/```[ \t]*\r?\n[ \t]*```/g → ''`. -/
def emptyFenceTry (_prev : Option Char) (s : Str) : Option (Str × Nat) :=
  (lit fence s 0).bind fun p1 =>
  (nlP s (htR s p1)).bind fun p2 =>
  (lit fence s (htR s p2)).map fun p3 => (([] : Str), p3)

/-- Variant 0: `/```1[Сс]\r?\n/g → '```1c\n'`. -/
def oneCTry (_prev : Option Char) (s : Str) : Option (Str × Nat) :=
  (lit (fence ++ ['1']) s 0).bind fun p1 =>
  match s[p1]? with
  | some ch =>
    if ch = 'С' ∨ ch = 'с' then
      (nlP s (p1 + 1)).map fun p2 => (fence ++ "1c\n".data, p2)
    else none
  | none => none

/-- Variant 1: `/```<code>\r?\n/g → '```bsl\n'`. -/
def codeTagLangTry (_prev : Option Char) (s : Str) : Option (Str × Nat) :=
  (lit (fence ++ "<code>".data) s 0).bind fun p1 =>
  (nlP s p1).map fun p2 => (fence ++ "bsl\n".data, p2)

/-- Variant 2a: empty block with a standalone `<code>` line → removed. -/
def v2aTry (_prev : Option Char) (s : Str) : Option (Str × Nat) :=
  (lit fence s 0).bind fun p1 =>
  (nlP s (htR s p1)).bind fun p2 =>
  (lit "<code>".data s (htR s p2)).bind fun p3 =>
  (nlP s (htR s p3)).bind fun p4 =>
  (lit fence s (htR s p4)).map fun p5 => (([] : Str), p5)

/-- The suffix of variant 2b:
`\r?\n[ \t]*<\/code>[ \t]*\r?\n[ \t]*``` `. -/
def v2bSuf (t : Str) : Option Nat :=
  (nlP t 0).bind fun a =>
  (lit "</code>".data t (htR t a)).bind fun b =>
  (nlP t (htR t b)).bind fun c =>
  (lit fence t (htR t c))

/-- Variant 2b: backtick block containing a closed `<code>` block. -/
def v2bTry (_prev : Option Char) (s : Str) : Option (Str × Nat) :=
  (lit fence s 0).bind fun p1 =>
  (nlP s (htR s p1)).bind fun p2 =>
  (lit "<code>".data s (htR s p2)).bind fun p3 =>
  (nlP s (htR s p3)).bind fun p4 =>
  (lazyScan v2bSuf (s.drop p4)).map fun r =>
    (fence ++ "bsl\n".data ++ trimJS r.1 ++ '\n' :: fence ++ "\n\n".data, p4 + r.2)

/-- Variant 2c: unclosed `<code>` tag inside a backtick block. -/
def v2cTry (_prev : Option Char) (s : Str) : Option (Str × Nat) :=
  (lit fence s 0).bind fun p1 =>
  (nlP s (htR s p1)).bind fun p2 =>
  (lit "<code>".data s (htR s p2)).bind fun p3 =>
  (nlP s (htR s p3)).bind fun p4 =>
  (findSub fence (s.drop p4)).map fun k =>
    (fence ++ "bsl\n".data ++ trimJS ((s.drop p4).take k) ++ '\n' :: fence,
      p4 + k + 3)

/-- Variant 3: `/```code\r?\n/g → '```bsl\n'`. -/
def codeLangTry (_prev : Option Char) (s : Str) : Option (Str × Nat) :=
  (lit (fence ++ "code".data) s 0).bind fun p1 =>
  (nlP s p1).map fun p2 => (fence ++ "bsl\n".data, p2)

/-- The suffix of variant 4a, greedy `\r?\n?` then `</code>`. -/
def v4aSuf (t : Str) : Option Nat :=
  if ('\r' :: '\n' :: "</code>".data).isPrefixOf t then some 9
  else if ('\r' :: "</code>".data).isPrefixOf t then some 8
  else if ('\n' :: "</code>".data).isPrefixOf t then some 8
  else if "</code>".data.isPrefixOf t then some 7
  else none

/-- Variant 4a: standalone closed `<code>...</code>` block. -/
def v4aTry (_prev : Option Char) (s : Str) : Option (Str × Nat) :=
  (lit "<code>".data s 0).bind fun p1 =>
  (nlP s (htR s p1)).bind fun p2 =>
  (lazyScan v4aSuf (s.drop p2)).map fun r =>
    (fence ++ "bsl\n".data ++ trimJS r.1 ++ '\n' :: fence ++ "\n\n".data, p2 + r.2)

/-- The look-ahead of variant 4b:
`(?=\r?\n[ \t]*(?:[#\*\-]|\d+\.|>)|(?:\r?\n){2,}|$)`. -/
def v4bAhead (t : Str) : Bool :=
  (match nlP t 0 with
   | some a =>
     (match t[htR t a]? with
      | some c =>
        decide (c = '#' ∨ c = '*' ∨ c = '-' ∨ c = '>') ||
          (isDig c &&
            decide (t[htR t a + countWhile isDig (t.drop (htR t a))]? = some '.'))
      | none => false) ||
     (nlP t a).isSome
   | none => false) ||
  t.isEmpty

/-- Variant 4b: unclosed `<code>` block, content up to the look-ahead
(which is not consumed). -/
def v4bTry (_prev : Option Char) (s : Str) : Option (Str × Nat) :=
  (lit "<code>".data s 0).bind fun p1 =>
  (nlP s (htR s p1)).bind fun p2 =>
  (lazyScan (fun t => if v4bAhead t then some 0 else none) (s.drop p2)).map fun r =>
    (fence ++ "bsl\n".data ++ trimEndJS r.1 ++ '\n' :: fence ++ "\n\n".data, p2 + r.2)

/-- Step 0.5: `` /(?<!`)``(?!`)/g → '```' `` (a two-backtick closing
fence is normalized to three; the look-behind reads the original
string). -/
def ticksTry (prev : Option Char) (s : Str) : Option (Str × Nat) :=
  if prev ≠ some btick ∧ [btick, btick].isPrefixOf s ∧ s[2]? ≠ some btick then
    some (fence, 2)
  else none

/-- Placeholder marker for one extracted block. -/
def mkToken (kind : Str) (i : Nat) : Str :=
  '§' :: '§' :: kind ++ natChars i ++ ['§', '§']

/-- The `&`, `<`, `>` escaping applied to the diagram source before it
is stored in the `data-mermaid-code` attribute. -/
def escape3 (s : Str) : Str :=
  replaceCharAll '>' "&gt;".data
    (replaceCharAll '<' "&lt;".data
      (replaceCharAll '&' "&amp;".data s))

/-- The Mermaid wrapper markup, with the escaped source in the
`data-mermaid-code` attribute (`safeCode.replace(/"/g, '&quot;')`). -/
def mermaidHtml (fixedCode : Str) : Str :=
  "<div class=\"mermaid-wrapper\" style=\"position:relative;\" data-zoom=\"1\"><div class=\"mermaid-controls\" style=\"position:absolute;top:8px;right:8px;display:flex;gap:4px;z-index:1;\"><button type=\"button\" class=\"mermaid-fullscreen-btn\" title=\"Развернуть на весь экран\" aria-label=\"Развернуть\" data-fullscreen style=\"padding:4px 8px;border-radius:6px;border:1px solid rgba(255,255,255,0.18);background:rgba(255,255,255,0.06);color:inherit;cursor:pointer;font-size:14px;line-height:1;opacity:.85;\">⛶</button></div><div class=\"mermaid-controls-bottom\" style=\"position:absolute;bottom:8px;right:8px;z-index:1;display:flex;gap:4px;\"><button type=\"button\" class=\"mermaid-save-btn\" title=\"Сохранить как PNG\" aria-label=\"Сохранить\" data-save-mermaid style=\"padding:4px 8px;border-radius:6px;border:1px solid rgba(255,255,255,0.18);background:rgba(255,255,255,0.06);color:inherit;cursor:pointer;font-size:12px;line-height:1;opacity:.85;\">🖫</button><button type=\"button\" class=\"mermaid-copy-btn\" title=\"Скопировать\" aria-label=\"Скопировать\" data-copy-mermaid style=\"padding:4px 8px;border-radius:6px;border:1px solid rgba(255,255,255,0.18);background:rgba(255,255,255,0.06);color:inherit;cursor:pointer;font-size:12px;line-height:1;opacity:.85;\">⧉</button></div><div class=\"mermaid-content\" style=\"transform-origin:center center;transition:transform 0.2s ease;width:100%;\"><div class=\"mermaid\" data-mermaid-code=\"".data ++
    replaceCharAll '"' "&quot;".data (escape3 fixedCode) ++
    "\"></div></div></div>".data

/-- The fenced-code wrapper markup. -/
def codeBlockHtml (lang : Str) (codeTxt : Str) : Str :=
  "<pre class=\"code-block\" style=\"position:relative;padding-right:42px;\"><button type=\"button\" class=\"code-copy-btn\" title=\"Скопировать\" aria-label=\"Скопировать\" data-copy-code style=\"position:absolute;bottom:8px;right:8px;padding:4px 8px;border-radius:6px;border:1px solid rgba(255,255,255,0.18);background:rgba(255,255,255,0.06);color:inherit;cursor:pointer;font-size:12px;line-height:1;opacity:.85;z-index:1;\">⧉</button>".data ++
    "<code".data ++
    (if lang.isEmpty then [] else " class=\"lang-".data ++ lang.map jsToLower ++ ['"']) ++
    '>' :: escapeHTML codeTxt ++ "</code>".data ++
    "</pre>".data

/-- Diagram extraction, accepted spelling 1:
`/```\r?\nmermaid\r?\n([\s\S]*?)```/g`. -/
def mermaid1Try (idx : Nat) (s : Str) : Option (Str × Nat × Str) :=
  (lit fence s 0).bind fun p1 =>
  (nlP s p1).bind fun p2 =>
  (lit "mermaid".data s p2).bind fun p3 =>
  (nlP s p3).bind fun p4 =>
  (findSub fence (s.drop p4)).map fun k =>
    (mkToken "MERMAID".data idx, p4 + k + 3,
      mermaidHtml (processMermaidFix (trimJS ((s.drop p4).take k))))

/-- Diagram extraction, standard spelling:
`/```mermaid\r?\n([\s\S]*?)```/g`. -/
def mermaid2Try (idx : Nat) (s : Str) : Option (Str × Nat × Str) :=
  (lit (fence ++ "mermaid".data) s 0).bind fun p1 =>
  (nlP s p1).bind fun p2 =>
  (findSub fence (s.drop p2)).map fun k =>
    (mkToken "MERMAID".data idx, p2 + k + 3,
      mermaidHtml (processMermaidFix (trimJS ((s.drop p2).take k))))

/-- Fence language-tag characters `[\w+-]`. -/
def langChar (c : Char) : Bool := reWordChar c ∨ c = '+' ∨ c = '-'

/-- Fenced-code extraction: `/```([\w+-]*)\r?\n([\s\S]*?)```/g`. -/
def codeBlockTry (idx : Nat) (s : Str) : Option (Str × Nat × Str) :=
  (lit fence s 0).bind fun p1 =>
  (nlP s (p1 + countWhile langChar (s.drop p1))).bind fun p2 =>
  (findSub fence (s.drop p2)).map fun k =>
    (mkToken "CODEBLOCK".data idx, p2 + k + 3,
      codeBlockHtml ((s.drop p1).takeWhile langChar) ((s.drop p2).take k))

/-- Inline-code extraction: `` /`([^`]+)`/g ``. -/
def inlineTry (idx : Nat) (s : Str) : Option (Str × Nat × Str) :=
  if s.head? = some btick then
    (fun content =>
      if content.isEmpty then none
      else if s[content.length + 1]? = some btick then
        some (mkToken "INLINECODE".data idx, content.length + 2,
          "<code>".data ++ escapeHTML content ++ "</code>".data)
      else none)
      ((s.drop 1).takeWhile (fun c => c ≠ btick))
  else none

end Markdown

namespace JsStr

/-- Stateful global-replace scan for the extraction passes: the matcher
receives the current store size (the placeholder index) and returns the
replacement, the consumed length and the HTML to store. -/
def scanExt (tr : Nat → Str → Option (Str × Nat × Str)) :
    Nat → Str → List Str → Str × List Str
  | 0, s, st => (s, st)
  | fuel + 1, s, st =>
    match tr st.length s with
    | some (rep, k, html) =>
      ((rep ++ (scanExt tr fuel (s.drop k) (st ++ [html])).1),
        (scanExt tr fuel (s.drop k) (st ++ [html])).2)
    | none =>
      match s with
      | [] => ([], st)
      | c :: cs =>
        ((c :: (scanExt tr fuel cs st).1), (scanExt tr fuel cs st).2)

/-- Run an extraction pass over a whole string, threading the store. -/
def runExt (tr : Nat → Str → Option (Str × Nat × Str)) (s : Str)
    (st : List Str) : Str × List Str :=
  scanExt tr (s.length + 1) s st

/-- Split on an arbitrary separator character. -/
def splitOnC (t : Char) : Str → List Str
  | [] => [[]]
  | c :: cs =>
    if c = t then [] :: splitOnC t cs
    else
      match splitOnC t cs with
      | l :: ls => (c :: l) :: ls
      | [] => [[c]]

end JsStr

namespace Markdown

open JsStr

/-- Horizontal rules: `/^(?:---+|\*\*\*+|___+)$/gm` on each line. -/
def hrLine (l : Str) : Str :=
  if (3 ≤ l.length ∧ l.all (fun c => c = '-')) ∨
      (3 ≤ l.length ∧ l.all (fun c => c = '*')) ∨
      (3 ≤ l.length ∧ l.all (fun c => c = '_')) then
    "<hr>".data
  else l

/-- Does the multiline `^` anchor hold here?  `prev` is the previous
character of the original string (`none` at the very start). -/
def lineStart : Option Char → Bool
  | none => true
  | some c => lineTerm c

/-- One-or-more quote items, `(?:^>.*$(?:\n|$))+` starting at a line
start: each item is `>` plus a maximal line-terminator-free run (`$` is
zero-width before a terminator), consuming the trailing `\n` when there
is one; a non-`\n` terminator ends the group because the next item's
`^` cannot hold mid-line.  Returns the matched text and its length. -/
def bqRun : Nat → Str → Str × Nat
  | 0, _ => ([], 0)
  | fuel + 1, s =>
    if s.head? = some '>' then
      (fun run =>
        if s[run.length + 1]? = some '\n' then
          (s.take (run.length + 2) ++ (bqRun fuel (s.drop (run.length + 2))).1,
            run.length + 2 + (bqRun fuel (s.drop (run.length + 2))).2)
        else (s.take (run.length + 1), run.length + 1))
        ((s.drop 1).takeWhile (fun c => ¬ lineTerm c))
    else ([], 0)

/-- `line.replace(/^>\s?/, '')`. -/
def stripQ (l : Str) : Str :=
  match l with
  | '>' :: c :: rest => if jsWs c then rest else c :: rest
  | '>' :: [] => []
  | _ => l

/-- The blockquote replacement callback: trim the captured group, split
on `\n`, strip each line's `>` marker, join with `<br>`. -/
def bqCb (g : Str) : Str :=
  '\n' :: "<blockquote>".data ++
    (((splitOnNl (trimJS g)).map stripQ).intersperse "<br>".data).flatten ++
    "</blockquote>".data ++ ['\n']

/-- Blockquotes, `/(?:^|\n)((?:^>.*$(?:\n|$))+)/gm`.  The match either
consumes a `\n` via the second alternative (anywhere in the string), or
starts zero-width via the multiline `^` (at the string start or right
after a line terminator); the engine prefers the earlier, consuming
start whenever a `\n` precedes the quote lines. -/
def bqTry (prev : Option Char) (s : Str) : Option (Str × Nat) :=
  if s.head? = some '\n' ∧ (s.drop 1).head? = some '>' then
    (fun r => some (bqCb r.1, r.2 + 1)) (bqRun (s.length + 1) (s.drop 1))
  else if lineStart prev ∧ s.head? = some '>' then
    (fun r => some (bqCb r.1, r.2)) (bqRun (s.length + 1) s)
  else none

/-- One heading pass `/^#+ (.*)$/gm` for a fixed number of hashes. -/
def hLine (hashes : Nat) (tag : Str) (l : Str) : Str :=
  if (List.replicate hashes '#' ++ [' ']).isPrefixOf l ∧
      (l.drop (hashes + 1)).all (fun c => ¬ lineTerm c) then
    '<' :: tag ++ '>' :: l.drop (hashes + 1) ++ '<' :: '/' :: tag ++ ['>']
  else l

/-- URL characters of the explicit-link pattern, `[^\s)]`. -/
def urlChar (c : Char) : Bool := ¬ jsWs c ∧ c ≠ ')'

/-- Parse `https?:\/\/` (greedy `s?`). -/
def httpPrefix (s : Str) : Option Nat :=
  if "https://".data.isPrefixOf s then some 8
  else if "http://".data.isPrefixOf s then some 7
  else none

/-- Links: `/\[([^\]]+)\]\((https?:\/\/[^\s)]+)\)/g`. -/
def linkTry (_prev : Option Char) (s : Str) : Option (Str × Nat) :=
  if s.head? = some '[' then
    (fun txt =>
      if txt.isEmpty then none
      else if s[txt.length + 1]? = some ']' ∧ s[txt.length + 2]? = some '(' then
        (httpPrefix (s.drop (txt.length + 3))).bind fun base =>
          (fun run =>
            if run.isEmpty then none
            else if s[txt.length + 3 + base + run.length]? = some ')' then
              some ("<a href=\"".data ++
                  (s.drop (txt.length + 3)).take (base + run.length) ++
                  "\" target=\"_blank\" rel=\"noopener noreferrer nofollow\">".data ++
                  txt ++ "</a>".data,
                txt.length + 3 + base + run.length + 1)
            else none)
            ((s.drop (txt.length + 3 + base)).takeWhile urlChar)
      else none)
      ((s.drop 1).takeWhile (fun c => c ≠ ']'))
  else none

/-- The character class excluded at the end of an autolink,
`[^\s<.,;:!?'")\]]` (beyond `\s` and `<` which the body class already
excludes). -/
def punctB (c : Char) : Bool :=
  c = '.' ∨ c = ',' ∨ c = ';' ∨ c = ':' ∨ c = '!' ∨ c = '?' ∨
  c = '\'' ∨ c = '"' ∨ c = ')' ∨ c = ']'

/-- Autolinks:
`/(?<!["'\(>])(https?:\/\/[^\s<]+[^\s<.,;:!?'")\]])/g`.  Greedy
backtracking keeps the longest body whose final character is not
punctuation. -/
def autoTry (prev : Option Char) (s : Str) : Option (Str × Nat) :=
  if prev = some '"' ∨ prev = some '\'' ∨ prev = some '(' ∨ prev = some '>' then
    none
  else
    (httpPrefix s).bind fun base =>
      (fun r =>
        (fun keep =>
          if 2 ≤ keep then
            some ("<a href=\"".data ++ s.take (base + keep) ++
                "\" target=\"_blank\" rel=\"noopener noreferrer nofollow\">".data ++
                s.take (base + keep) ++ "</a>".data,
              base + keep)
          else none)
          (r.length - (r.reverse.takeWhile punctB).length))
        ((s.drop base).takeWhile (fun c => ¬ jsWs c ∧ c ≠ '<'))

/-- A delimited-emphasis matcher: `OPEN content CLOSE` where the content
is a nonempty run free of the delimiter character. -/
def emphTry (opn : Str) (cls : Str) (bar : Char) (tagO tagC : Str)
    (_prev : Option Char) (s : Str) : Option (Str × Nat) :=
  if opn.isPrefixOf s then
    (fun content =>
      if content.isEmpty then none
      else if cls.isPrefixOf (s.drop (opn.length + content.length)) then
        some (tagO ++ content ++ tagC,
          opn.length + content.length + cls.length)
      else none)
      ((s.drop opn.length).takeWhile (fun c => c ≠ bar))
  else none

/-- Strikethrough `~~text~~`. -/
def strikeTry : Option Char → Str → Option (Str × Nat) :=
  emphTry "~~".data "~~".data '~' "<del>".data "</del>".data

/-- Bold `**text**`. -/
def boldTry : Option Char → Str → Option (Str × Nat) :=
  emphTry "**".data "**".data '*' "<strong>".data "</strong>".data

/-- Bold `__text__`. -/
def bold2Try : Option Char → Str → Option (Str × Nat) :=
  emphTry "__".data "__".data '_' "<strong>".data "</strong>".data

/-- Italic `_text_`. -/
def italTry : Option Char → Str → Option (Str × Nat) :=
  emphTry "_".data "_".data '_' "<em>".data "</em>".data

end Markdown

namespace Markdown

open JsStr

/-- Apply a whole-line transformation to every line, where lines are the
maximal runs between line terminators (a multiline `^…$` pattern
anchors at every terminator, including `\r`). -/
def linePassGo (f : Str → Str) : Nat → Str → Str
  | 0, s => s
  | fuel + 1, s =>
    (fun line =>
      f line ++
        match s[line.length]? with
        | some c => c :: linePassGo f fuel (s.drop (line.length + 1))
        | none => [])
      (s.takeWhile (fun c => ¬ lineTerm c))

/-- Run a `^…$`-anchored line pattern over the whole string. -/
def linePass (f : Str → Str) (s : Str) : Str := linePassGo f (s.length + 1) s

/-- The unordered-list marker `[\*\-]`. -/
def ulMark (s : Str) : Option Nat :=
  match s.head? with
  | some '*' => some 1
  | some '-' => some 1
  | _ => none

/-- The ordered-list marker `\d+\.`. -/
def olMark (s : Str) : Option Nat :=
  (fun d =>
    if d = 0 then none
    else if s[d]? = some '.' then some (d + 1) else none)
    (countWhile isDig s)

/-- `\s+.+(?:\n|$)` (no `m` flag) tried with the whitespace run of
length `a`: the first content character must not be a line terminator,
`.+` then runs greedily, and `\n` is consumed (or the string ends). -/
def itemBodyAt (s : Str) (a : Nat) : Option Nat :=
  match s[a]? with
  | some c =>
    if lineTerm c then none
    else
      (fun run =>
        if s[a + run.length]? = some '\n' then some (a + run.length + 1)
        else if s[a + run.length]? = none then some (a + run.length)
        else none)
        ((s.drop a).takeWhile (fun c => ¬ lineTerm c))
  | none => none

/-- Greedy backtracking over the `\s+` length, from maximal down to 1. -/
def itemBodyGo (s : Str) : Nat → Option Nat
  | 0 => none
  | a + 1 =>
    match itemBodyAt s (a + 1) with
    | some n => some n
    | none => itemBodyGo s a

/-- Length consumed by `\s+.+(?:\n|$)` at the start of `s`. -/
def itemBody (s : Str) : Option Nat :=
  itemBodyGo s (countWhile jsWs s)

/-- Length consumed by one list item, `[ \t]*M\s+.+(?:\n|$)` for the
marker pattern `M`: indent and marker backtracking cannot succeed below
the maximal indent run, since `*`, `-` and digits are not `[ \t]`. -/
def itemLen (mark : Str → Option Nat) (s : Str) : Option Nat :=
  (fun ind =>
    (mark (s.drop ind)).bind fun m =>
      (itemBody (s.drop (ind + m))).map fun b => ind + m + b)
    (countWhile htChar s)

/-- The one-or-more repetition of list items: matched text and length. -/
def itemsRun (mark : Str → Option Nat) : Nat → Str → Str × Nat
  | 0, _ => ([], 0)
  | fuel + 1, s =>
    match itemLen mark s with
    | some n =>
      (s.take n ++ (itemsRun mark fuel (s.drop n)).1,
        n + (itemsRun mark fuel (s.drop n)).2)
    | none => ([], 0)

/-- The marker alternation `([\*\-]|\d+\.)` of the per-line regexes of
`parseList` (the class is tried first; a digit falls to `\d+\.`). -/
def lineMark (s : Str) : Option Nat :=
  match ulMark s with
  | some n => some n
  | none => olMark s

/-- `\s+(.+)$` on a single line string (no `m`: `$` is the very end),
tried with whitespace length `a`: content must reach the end. -/
def lineBodyAt (s : Str) (a : Nat) : Option Str :=
  match s[a]? with
  | some c =>
    if lineTerm c then none
    else
      (fun run => if a + run.length = s.length then some run else none)
        ((s.drop a).takeWhile (fun c => ¬ lineTerm c))
  | none => none

/-- Greedy backtracking over the `\s+` length for the line regex. -/
def lineBodyGo (s : Str) : Nat → Option Str
  | 0 => none
  | a + 1 =>
    match lineBodyAt s (a + 1) with
    | some r => some r
    | none => lineBodyGo s a

/-- `line.match(/^([ \t]*)([\*\-]|\d+\.)\s+(.+)$/)`: the indent length
and the content group. -/
def parseLine (l : Str) : Option (Nat × Str) :=
  (fun ind =>
    (fun rest =>
      (lineMark rest).bind fun m =>
        (lineBodyGo (rest.drop m) (countWhile jsWs (rest.drop m))).map
          fun content => (ind, content))
      (l.drop ind))
    (countWhile htChar l)

/-- `line.match(/^([ \t]*)([\*\-]|\d+\.)\s+/)`: the indent length when
the line begins like a list item. -/
def parseLineHead (l : Str) : Option Nat :=
  (fun ind =>
    (lineMark (l.drop ind)).bind fun m =>
      if 0 < countWhile jsWs (l.drop (ind + m)) then some ind else none)
    (countWhile htChar l)

/-- The nested-lines collection of `parseList`: following lines that
look like items and are indented strictly more than `indentLevel`. -/
def takeNested (indentLevel : Nat) : List Str → List Str
  | [] => []
  | l :: ls =>
    match parseLineHead l with
    | some ind =>
      if ind ≤ indentLevel then [] else l :: takeNested indentLevel ls
    | none => []

/-- Is the first nested line's marker `\d+\.` (so the nested list tag is
`ol`)?  The alternation gives the class priority, as in `lineMark`. -/
def nestedIsOrdered (l : Str) : Bool :=
  (fun ind =>
    match ulMark (l.drop ind) with
    | some _ => false
    | none => (olMark (l.drop ind)).isSome)
    (countWhile htChar l)

/-- `parseList(lines)` (fuelled: both recursive calls are on strictly
shorter line lists). -/
def parseListF : Nat → List Str → Str
  | 0, _ => []
  | fuel + 1, lines =>
    match lines with
    | [] => []
    | l :: ls =>
      match parseLine l with
      | none => []
      | some (ind, content) =>
        (fun nested =>
          "<li>".data ++ content ++
            (if nested.isEmpty then []
             else
               (fun tag =>
                 '<' :: tag ++ '>' :: parseListF fuel nested ++
                   '<' :: '/' :: tag ++ ['>'])
                 (if nestedIsOrdered (nested.headD []) then "ol".data
                  else "ul".data)) ++
            "</li>".data ++ parseListF fuel (ls.drop nested.length))
          (takeNested ind ls)

def parseList (lines : List Str) : Str := parseListF lines.length lines

/-- The list replacement callback: `'\n<TAG>' + items + '</TAG>\n'`. -/
def listCb (tag : Str) (g : Str) : Str :=
  '\n' :: '<' :: tag ++ '>' :: parseList (splitOnNl (trimJS g)) ++
    '<' :: '/' :: tag ++ '>' :: ['\n']

/-- A list pass, `/(?:^|\n)((?:[ \t]*M\s+.+(?:\n|$))+)/g` (no `m`): the
match either consumes a `\n` anywhere, or starts zero-width at the
string start only. -/
def listTry (mark : Str → Option Nat) (tag : Str) (prev : Option Char)
    (s : Str) : Option (Str × Nat) :=
  if s.head? = some '\n' ∧ (itemLen mark (s.drop 1)).isSome then
    (fun r => some (listCb tag r.1, r.2 + 1))
      (itemsRun mark (s.length + 1) (s.drop 1))
  else if prev = none ∧ (itemLen mark s).isSome then
    (fun r => some (listCb tag r.1, r.2)) (itemsRun mark (s.length + 1) s)
  else none

def ulTry : Option Char → Str → Option (Str × Nat) := listTry ulMark "ul".data

def olTry : Option Char → Str → Option (Str × Nat) := listTry olMark "ol".data

end Markdown

namespace Markdown

open JsStr

/-- The table header row `\|.+\|\n`: with `.+` greedy, the closing `|`
must be the last character of the maximal terminator-free run and be
followed by `\n`.  Returns the consumed length (through the `\n`). -/
def rowOk (s : Str) : Option Nat :=
  if s.head? = some '|' then
    (fun run =>
      if 2 ≤ run.length ∧ run.getLast? = some '|' ∧
          s[run.length + 1]? = some '\n' then
        some (run.length + 2)
      else none)
      ((s.drop 1).takeWhile (fun c => ¬ lineTerm c))
  else none

/-- The separator-row character class `[\s\-:|]`. -/
def sepChar (c : Char) : Bool := jsWs c ∨ c = '-' ∨ c = ':' ∨ c = '|'

/-- Greedy backtracking for `\|[\s\-:|]+\|\n`: class run of length
`k + 1`, then `|` and `\n`; tried from the maximal run downwards. -/
def sepFindGo (s : Str) : Nat → Option Nat
  | 0 => none
  | k + 1 =>
    if s[k + 2]? = some '|' ∧ s[k + 3]? = some '\n' then some (k + 4)
    else sepFindGo s k

/-- The separator row: consumed length (through the `\n`). -/
def sepOk (s : Str) : Option Nat :=
  if s.head? = some '|' then sepFindGo s (countWhile sepChar (s.drop 1))
  else none

/-- A body row `\|.+\|\n?`: the closing `|` is the last `|` of the
maximal terminator-free run (the optional `\n` lets text after it stay
unconsumed), at offset at least 2 from the leading `|`. -/
def bodyRowOk (s : Str) : Option Nat :=
  if s.head? = some '|' then
    (fun run =>
      (fun j =>
        if 2 ≤ j then
          some (if s[j + 1]? = some '\n' then j + 2 else j + 1)
        else none)
        (run.length - (run.reverse.takeWhile (fun c => c ≠ '|')).length))
      ((s.drop 1).takeWhile (fun c => ¬ lineTerm c))
  else none

/-- The one-or-more body rows: total consumed length. -/
def bodyRows : Nat → Str → Nat
  | 0, _ => 0
  | fuel + 1, s =>
    match bodyRowOk s with
    | some n => n + bodyRows fuel (s.drop n)
    | none => 0

/-- Length of the whole table group
`\|.+\|\n\|[\s\-:|]+\|\n(?:\|.+\|\n?)+`. -/
def tableLen (s : Str) : Option Nat :=
  (rowOk s).bind fun h =>
    (sepOk (s.drop h)).bind fun sp =>
      (fun b => if b = 0 then none else some (h + sp + b))
        (bodyRows (s.length + 1) (s.drop (h + sp)))

/-- `line.split('|').slice(1, -1)`. -/
def cellsOf (l : Str) : List Str := ((splitOnC '|' l).drop 1).dropLast

/-- The alignment derived from one separator cell. -/
def alignOf (cell : Str) : Str :=
  (fun t =>
    if t.head? = some ':' ∧ t.getLast? = some ':' then "center".data
    else if t.getLast? = some ':' then "right".data
    else if t.head? = some ':' then "left".data
    else [])
    (trimJS cell)

/-- ` align="…"` when the alignment is nonempty (a missing or empty
alignment is falsy). -/
def alignAttr (a : Str) : Str :=
  if a.isEmpty then [] else " align=\"".data ++ a ++ ['"']

/-- Index-aware map for the `forEach((cell, i) => …)` loops. -/
def mapIdxGo (f : Nat → Str → Str) : Nat → List Str → List Str
  | _, [] => []
  | i, c :: cs => f i c :: mapIdxGo f (i + 1) cs

def thCell (aligns : List Str) (i : Nat) (cell : Str) : Str :=
  "<th".data ++ alignAttr (aligns.getD i []) ++ '>' :: cell ++ "</th>".data

def tdCell (aligns : List Str) (i : Nat) (cell : Str) : Str :=
  "<td".data ++ alignAttr (aligns.getD i []) ++ '>' :: cell ++ "</td>".data

/-- The table HTML built from the trimmed-and-split lines. -/
def tableBuild (lines : List Str) : Str :=
  (fun aligns =>
    "<table><thead><tr>".data ++
      (mapIdxGo (thCell aligns) 0 ((cellsOf (lines.getD 0 [])).map trimJS)).flatten ++
      "</tr></thead><tbody>".data ++
      ((lines.drop 2).map (fun l =>
        "<tr>".data ++
          (mapIdxGo (tdCell aligns) 0 ((cellsOf l).map trimJS)).flatten ++
          "</tr>".data)).flatten ++
      "</tbody></table>".data)
    ((cellsOf (lines.getD 1 [])).map alignOf)

/-- The table replacement callback (including the defensive `< 2` lines
fallback that returns the group unchanged). -/
def tableCb (g : Str) : Str :=
  (fun lines =>
    if lines.length < 2 then g
    else '\n' :: tableBuild lines ++ ['\n'])
    (splitOnNl (trimJS g))

/-- Tables,
`/(?:^|\n)(\|.+\|\n\|[\s\-:|]+\|\n(?:\|.+\|\n?)+)/gm`: the match
consumes a `\n` anywhere, or starts zero-width at a line start. -/
def tableTry (prev : Option Char) (s : Str) : Option (Str × Nat) :=
  if s.head? = some '\n' then
    (tableLen (s.drop 1)).map fun n => (tableCb ((s.drop 1).take n), n + 1)
  else if lineStart prev then
    (tableLen s).map fun n => (tableCb (s.take n), n)
  else none

/-- Index of the first `\n\n` pair (the start of a `\n{2,}` separator). -/
def blankIdx : Str → Option Nat
  | '\n' :: '\n' :: _ => some 0
  | _ :: cs => (blankIdx cs).map (fun n => n + 1)
  | [] => none

/-- `md.split(/\n{2,}/)`: each separator is a maximal newline run of
length at least 2. -/
def sbGo : Nat → Str → List Str
  | 0, s => [s]
  | fuel + 1, s =>
    match blankIdx s with
    | none => [s]
    | some i =>
      s.take i ::
        sbGo fuel (s.drop (i + countWhile (fun c => c = '\n') (s.drop i)))

def splitBlank (s : Str) : List Str := sbGo (s.length + 1) s

/-- Case-insensitive prefix test (the `/i` flag of the block-tag
pattern; all its prefixes are case-stable under this folding). -/
def ciPrefix (p s : Str) : Bool :=
  (s.take p.length).map jsToLower = p.map jsToLower

/-- `/^<h[1-6]|^<pre|^<ul|^<ol|^<blockquote|^<hr|^<table|^<div
class="mermaid-wrapper"|^§§MERMAID/i` on the trimmed block. -/
def blockTagTest (s : Str) : Bool :=
  ciPrefix "<h1".data s ∨ ciPrefix "<h2".data s ∨ ciPrefix "<h3".data s ∨
  ciPrefix "<h4".data s ∨ ciPrefix "<h5".data s ∨ ciPrefix "<h6".data s ∨
  ciPrefix "<pre".data s ∨ ciPrefix "<ul".data s ∨ ciPrefix "<ol".data s ∨
  ciPrefix "<blockquote".data s ∨ ciPrefix "<hr".data s ∨
  ciPrefix "<table".data s ∨
  ciPrefix "<div class=\"mermaid-wrapper\"".data s ∨
  ciPrefix "§§MERMAID".data s

/-- One block of the paragraph stage. -/
def paraBlock (b : Str) : Str :=
  (fun t =>
    if t.isEmpty then []
    else if blockTagTest t then t
    else "<p>".data ++ replaceCharAll '\n' "<br>".data t ++ "</p>".data)
    (trimJS b)

/-- Step 13: split on blank-line runs, wrap the non-block blocks in
`<p>…</p>` with `\n` becoming `<br>`, and join with `\n`. -/
def paragraphs (s : Str) : Str := joinNl ((splitBlank s).map paraBlock)

end Markdown

namespace JsStr

/-- `GetSubstitution` for a replacement string with a string (capture-
free) pattern: `$$`, `$&`, `` $` `` and `$'` substitute; everything
else, including `$1`, is literal. -/
def dollarSubst (matched pre suf : Str) : Nat → Str → Str
  | 0, s => s
  | _fuel + 1, [] => []
  | fuel + 1, c :: rest =>
    if c = '$' then
      match rest with
      | [] => ['$']
      | d :: rest2 =>
        if d = '$' then '$' :: dollarSubst matched pre suf fuel rest2
        else if d = '&' then matched ++ dollarSubst matched pre suf fuel rest2
        else if d = btick then pre ++ dollarSubst matched pre suf fuel rest2
        else if d = '\'' then suf ++ dollarSubst matched pre suf fuel rest2
        else '$' :: dollarSubst matched pre suf fuel rest
    else c :: dollarSubst matched pre suf fuel rest

/-- `s.replace(needle, rep)` with a plain string `needle`: the first
occurrence is replaced, and `rep` undergoes `$`-substitution. -/
def jsReplace (needle rep s : Str) : Str :=
  match findSub needle s with
  | some i =>
    s.take i ++
      dollarSubst needle (s.take i) (s.drop (i + needle.length))
        (rep.length + 1) rep ++
      s.drop (i + needle.length)
  | none => s

end JsStr

namespace Markdown

open JsStr

/-- Steps 0–0.5: the code-fence normalization passes, in source order. -/
def fenceNorm (s : Str) : Str :=
  runRepl ticksTry
    (runRepl v4bTry
      (runRepl v4aTry
        (runRepl codeLangTry
          (runRepl v2cTry
            (runRepl v2bTry
              (runRepl v2aTry
                (runRepl codeTagLangTry
                  (runRepl oneCTry
                    (runRepl emptyFenceTry s)))))))))

/-- Step 1: the two Mermaid extraction passes share one store. -/
def extMermaid (s : Str) : Str × List Str :=
  (fun r => runExt mermaid2Try r.1 r.2) (runExt mermaid1Try s [])

/-- Steps 2–13: from `escapeHTML` through the paragraph stage. -/
def midStages (s : Str) : Str :=
  paragraphs
    (runRepl tableTry
      (runRepl olTry
        (runRepl ulTry
          (runRepl italTry
            (runRepl bold2Try
              (runRepl boldTry
                (runRepl strikeTry
                  (runRepl autoTry
                    (runRepl linkTry
                      (linePass (hLine 1 "h1".data)
                        (linePass (hLine 2 "h2".data)
                          (linePass (hLine 3 "h3".data)
                            (linePass (hLine 4 "h4".data)
                              (linePass (hLine 5 "h5".data)
                                (linePass (hLine 6 "h6".data)
                                  (runRepl bqTry
                                    (linePass hrLine
                                      (escapeHTML s))))))))))))))))))

/-- Steps 14–16: `store.forEach((html, i) => md = md.replace(token,
html))` for one placeholder kind. -/
def restoreGo (kind : Str) : Nat → List Str → Str → Str
  | _, [], md => md
  | i, h :: rest, md => restoreGo kind (i + 1) rest (jsReplace (mkToken kind i) h md)

/-- `render(md)` from markdown.js: normalization, the three extraction
passes, the inline/block stages, and the three restoration loops. -/
def render (md : Str) : Str :=
  if md.isEmpty then []
  else
    (fun mres =>
      (fun cres =>
        (fun ires =>
          restoreGo "INLINECODE".data 0 ires.2
            (restoreGo "MERMAID".data 0 mres.2
              (restoreGo "CODEBLOCK".data 0 cres.2
                (midStages ires.1))))
          (runExt inlineTry cres.1 []))
        (runExt codeBlockTry mres.1 []))
      (extMermaid (fenceNorm md))

end Markdown

namespace JsStr

/-- Decimal parse (left fold), an inverse of `natChars`. -/
def parseDec (s : Str) : Nat := s.foldl (fun a c => a * 10 + (c.toNat - 48)) 0

theorem char_toNat_ofNat {n : Nat} (h : n < 55296) : (Char.ofNat n).toNat = n := by
  simp [Char.ofNat, Char.ofNatAux, Nat.isValidChar, h, Char.toNat, UInt32.toNat]

theorem char_le_toNat {c d : Char} (h : c ≤ d) : c.toNat ≤ d.toNat := by
  simp [Char.le_def, UInt32.le_def, BitVec.le_def, Char.toNat, UInt32.toNat] at *
  omega

theorem foldl_natCharsF :
    ∀ fuel n a, n < 10 ^ fuel →
      List.foldl (fun a c => a * 10 + (c.toNat - 48)) a (natCharsF fuel n) =
        a * 10 ^ (natCharsF fuel n).length + n := by
  intro fuel
  induction fuel with
  | zero =>
    intro n a h
    have hn : n = 0 := by simpa using h
    subst hn
    simp [natCharsF]
  | succ fuel ih =>
    intro n a h
    by_cases hn : n < 10
    · have hv : (Char.ofNat (48 + n)).toNat = 48 + n := char_toNat_ofNat (by omega)
      simp only [natCharsF, if_pos hn, List.foldl_cons, List.foldl_nil,
        List.length_cons, List.length_nil, hv]
      simp [pow_succ]
    · have hd : n / 10 < 10 ^ fuel := by
        rw [Nat.div_lt_iff_lt_mul (by norm_num)]
        calc n < 10 ^ (fuel + 1) := h
          _ = 10 ^ fuel * 10 := by ring
      have hv : (Char.ofNat (48 + n % 10)).toNat = 48 + n % 10 :=
        char_toNat_ofNat (by omega)
      simp only [natCharsF, if_neg hn, List.foldl_append, List.foldl_cons,
        List.foldl_nil, List.length_append, List.length_cons, List.length_nil, hv]
      rw [ih (n / 10) a hd]
      have e1 : (48 + n % 10) - 48 = n % 10 := by omega
      rw [e1]
      rw [show ∀ X : Nat, (a * X + n / 10) * 10 + n % 10 =
            a * (X * 10) + (n / 10 * 10 + n % 10) from fun X => by ring]
      rw [show n / 10 * 10 + n % 10 = n by omega]
      rw [show (natCharsF fuel (n / 10)).length + (0 + 1) =
            (natCharsF fuel (n / 10)).length + 1 by omega]
      rw [pow_succ]

theorem parseDec_natChars (n : Nat) : parseDec (natChars n) = n := by
  have h : n < 10 ^ (n + 1) := by
    calc n < 2 ^ n := Nat.lt_two_pow n
      _ ≤ 10 ^ n := Nat.pow_le_pow_left (by norm_num) n
      _ ≤ 10 ^ (n + 1) := Nat.pow_le_pow_right (by norm_num) (by omega)
  have := foldl_natCharsF (n + 1) n 0 h
  simpa [parseDec, natChars] using this

theorem natChars_inj {m n : Nat} (h : natChars m = natChars n) : m = n := by
  have hm := parseDec_natChars m
  rw [h, parseDec_natChars] at hm
  omega

end JsStr

namespace Markdown

open JsStr

theorem mkToken_inj (kind : Str) : Function.Injective (mkToken kind) := by
  intro i j h
  have h1 : ('§' :: '§' :: kind) ++ (natChars i ++ ['§', '§']) =
      ('§' :: '§' :: kind) ++ (natChars j ++ ['§', '§']) := by
    simpa [mkToken, List.append_assoc] using h
  have h2 := List.append_cancel_left h1
  exact natChars_inj (List.append_cancel_right h2)

/-- The placeholder markers minted by one `render` call, in insertion
order per kind. -/
def mintedMarkers (md : Str) : List Str :=
  (fun mres =>
    (fun cres =>
      (fun ires =>
        (List.range cres.2.length).map (mkToken "CODEBLOCK".data) ++
        (List.range mres.2.length).map (mkToken "MERMAID".data) ++
        (List.range ires.2.length).map (mkToken "INLINECODE".data))
        (runExt inlineTry cres.1 []))
      (runExt codeBlockTry mres.1 []))
    (extMermaid (fenceNorm md))

theorem mkToken_cross (c d : Char) {k1 k2 : Str} (h1 : k1.head? = some c)
    (h2 : k2.head? = some d) (hne : c ≠ d) (i j : Nat) :
    mkToken k1 i ≠ mkToken k2 j := by
  cases k1 with
  | nil => simp at h1
  | cons a k1' =>
    cases k2 with
    | nil => simp at h2
    | cons b k2' =>
      injection h1 with h1
      injection h2 with h2
      subst h1
      subst h2
      intro h
      simp only [mkToken, List.cons_append, List.cons.injEq] at h
      exact hne h.2.2.1

theorem marker_lists_nodup (a b c : Nat) :
    ((List.range a).map (mkToken "CODEBLOCK".data) ++
      (List.range b).map (mkToken "MERMAID".data) ++
      (List.range c).map (mkToken "INLINECODE".data)).Nodup := by
  rw [List.nodup_append, List.nodup_append]
  refine ⟨⟨(List.nodup_range a).map (mkToken_inj _),
    (List.nodup_range b).map (mkToken_inj _), ?_⟩,
    (List.nodup_range c).map (mkToken_inj _), ?_⟩
  · intro x hx hy
    simp only [List.mem_map, List.mem_range] at hx hy
    obtain ⟨i, _, rfl⟩ := hx
    obtain ⟨j, _, hj⟩ := hy
    refine mkToken_cross 'M' 'C' ?_ ?_ (by decide) j i hj <;> rfl
  · intro x hx hy
    simp only [List.mem_append, List.mem_map, List.mem_range] at hx hy
    obtain ⟨j, _, hj⟩ := hy
    rcases hx with ⟨i, _, rfl⟩ | ⟨i, _, rfl⟩
    · refine mkToken_cross 'I' 'C' ?_ ?_ (by decide) j i hj <;> rfl
    · refine mkToken_cross 'I' 'M' ?_ ?_ (by decide) j i hj <;> rfl

theorem mintedMarkers_nodup (md : Str) : (mintedMarkers md).Nodup := by
  unfold mintedMarkers
  exact marker_lists_nodup _ _ _

theorem mintedMarkers_sect {md : Str} {m : Str} (h : m ∈ mintedMarkers md) :
    "§§".data <+: m := by
  unfold mintedMarkers at h
  simp only [List.mem_append, List.mem_map, List.mem_range] at h
  rcases h with (⟨i, _, rfl⟩ | ⟨i, _, rfl⟩) | ⟨i, _, rfl⟩ <;>
    exact ⟨_, rfl⟩

end Markdown

namespace JsStr

/-- Literal (verbatim) first-occurrence replacement, following the
specification's description of restoration; to be compared with the
source's `jsReplace`, whose replacement string undergoes
`$`-substitution. -/
def litReplace (needle rep s : Str) : Str :=
  match findSub needle s with
  | some i => s.take i ++ rep ++ s.drop (i + needle.length)
  | none => s

theorem dollarSubst_no_dollar (matched pre suf : Str) :
    ∀ fuel s, '$' ∉ s → dollarSubst matched pre suf fuel s = s := by
  intro fuel
  induction fuel with
  | zero => intro s _; rfl
  | succ fuel ih =>
    intro s h
    match s with
    | [] => rfl
    | c :: rest =>
      have hc : ¬(c = '$') := fun e => h (e ▸ List.mem_cons_self c rest)
      simp only [dollarSubst, if_neg hc]
      rw [ih rest (fun hm => h (List.mem_cons_of_mem c hm))]

end JsStr

namespace Markdown

open JsStr

/-- Characters that can take part in no Markdown construct and no
language marker of the pipeline: fences and inline code (backtick),
HTML-significant characters, headings, emphasis, strikethrough, rules,
lists (bullets and ordinal digits), links, autolink URLs (slash),
tables, placeholder markers (section sign), and the line terminators
and exotic whitespace that the regex anchors treat specially. -/
def plainChar (c : Char) : Bool :=
  ¬(c = btick ∨ c = '<' ∨ c = '>' ∨ c = '&' ∨ c = '"' ∨ c = '\'' ∨
    c = '#' ∨ c = '*' ∨ c = '-' ∨ c = '_' ∨ c = '~' ∨ c = '|' ∨
    c = '[' ∨ c = ']' ∨ c = '(' ∨ c = ')' ∨ c = '§' ∨ c = '/' ∨
    isDig c ∨ c = '\t' ∨ c = '\x0b' ∨ c = '\x0c' ∨ (lineTerm c ∧ ¬(c = '\n')))

/-- Plain text: non-empty, made of plain characters, with no blank line
(which would split paragraphs) and no leading or trailing whitespace
(which the paragraph stage would trim away). -/
def PlainText (s : Str) : Prop :=
  s ≠ [] ∧ (∀ c ∈ s, plainChar c = true) ∧
    ¬ List.IsInfix ['\n', '\n'] s ∧ trimJS s = s

end Markdown

namespace JsStr

theorem scanRepl_id {P : Char → Bool} (tr : Option Char → Str → Option (Str × Nat))
    (htr : ∀ prev t, (∀ c ∈ t, P c = true) → tr prev t = none) :
    ∀ fuel prev s, (∀ c ∈ s, P c = true) → scanRepl tr fuel prev s = s := by
  intro fuel
  induction fuel with
  | zero => intro prev s _; rfl
  | succ fuel ih =>
    intro prev s hP
    rw [scanRepl.eq_def]
    dsimp only
    rw [htr prev s hP]
    match s with
    | [] => rfl
    | c :: cs =>
      dsimp only
      rw [ih (some c) cs (fun d hd => hP d (List.mem_cons_of_mem c hd))]

theorem runRepl_id {P : Char → Bool} (tr : Option Char → Str → Option (Str × Nat))
    (htr : ∀ prev t, (∀ c ∈ t, P c = true) → tr prev t = none)
    (s : Str) (hP : ∀ c ∈ s, P c = true) : runRepl tr s = s :=
  scanRepl_id tr htr (s.length + 1) none s hP

theorem scanExt_id {P : Char → Bool} (tr : Nat → Str → Option (Str × Nat × Str))
    (htr : ∀ i t, (∀ c ∈ t, P c = true) → tr i t = none) :
    ∀ fuel s st, (∀ c ∈ s, P c = true) → scanExt tr fuel s st = (s, st) := by
  intro fuel
  induction fuel with
  | zero => intro s st _; rfl
  | succ fuel ih =>
    intro s st hP
    rw [scanExt.eq_def]
    dsimp only
    rw [htr st.length s hP]
    match s with
    | [] => rfl
    | c :: cs =>
      dsimp only
      rw [ih cs st (fun d hd => hP d (List.mem_cons_of_mem c hd))]

theorem runExt_id {P : Char → Bool} (tr : Nat → Str → Option (Str × Nat × Str))
    (htr : ∀ i t, (∀ c ∈ t, P c = true) → tr i t = none)
    (s : Str) (st : List Str) (hP : ∀ c ∈ s, P c = true) :
    runExt tr s st = (s, st) :=
  scanExt_id tr htr (s.length + 1) s st hP

theorem replaceCharAll_id (t : Char) (rep : Str) :
    ∀ s, t ∉ s → replaceCharAll t rep s = s := by
  intro s
  induction s with
  | nil => intro _; rfl
  | cons c cs ih =>
    intro h
    have hc : ¬(c = t) := fun e => h (e ▸ List.mem_cons_self c cs)
    simp only [replaceCharAll, if_neg hc, List.singleton_append, List.cons.injEq,
      true_and]
    exact ih (fun hm => h (List.mem_cons_of_mem c hm))

theorem mem_of_head? {l : Str} {c : Char} (h : l.head? = some c) : c ∈ l := by
  cases l with
  | nil => simp at h
  | cons a l' =>
    injection h with h
    exact h ▸ List.mem_cons_self a l'

theorem mem_of_isPrefixOf {p t : Str} (h : p.isPrefixOf t = true) {c : Char}
    (hc : c ∈ p) : c ∈ t :=
  ((List.isPrefixOf_iff_prefix.mp h).sublist).subset hc

theorem countWhile_eq_zero {q : Char → Bool} {t : Str}
    (h : ∀ c ∈ t, q c = false) : countWhile q t = 0 := by
  cases t with
  | nil => rfl
  | cons c cs =>
    rw [countWhile, if_neg]
    rw [h c (List.mem_cons_self c cs)]
    exact Bool.false_ne_true

theorem drop_length_takeWhile (p : Char → Bool) :
    ∀ s : Str, s.drop (s.takeWhile p).length = s.dropWhile p := by
  intro s
  induction s with
  | nil => rfl
  | cons c cs ih =>
    by_cases h : p c
    · simp only [List.takeWhile_cons, if_pos h, List.dropWhile_cons, h, if_true,
        List.length_cons, List.drop_succ_cons]
      exact ih
    · simp [List.takeWhile_cons, List.dropWhile_cons, h]

end JsStr

namespace Markdown

open JsStr

theorem lit_none_of_bad {p t : Str} {c : Char} (hc : c ∈ p)
    (hbad : plainChar c = false) (hP : ∀ d ∈ t, plainChar d = true) (i : Nat) :
    lit p t i = none := by
  unfold lit
  rw [if_neg]
  intro h
  have hm : c ∈ t := List.drop_subset i t (mem_of_isPrefixOf h hc)
  rw [hP c hm] at hbad
  exact Bool.noConfusion hbad

theorem btick_mem_fence : btick ∈ fence := by decide

theorem plainChar_btick : plainChar btick = false := by decide

theorem emptyFenceTry_none (prev : Option Char) (t : Str)
    (hP : ∀ c ∈ t, plainChar c = true) : emptyFenceTry prev t = none := by
  unfold emptyFenceTry
  rw [lit_none_of_bad btick_mem_fence plainChar_btick hP 0]
  rfl

theorem oneCTry_none (prev : Option Char) (t : Str)
    (hP : ∀ c ∈ t, plainChar c = true) : oneCTry prev t = none := by
  unfold oneCTry
  rw [lit_none_of_bad (List.mem_append_left ['1'] btick_mem_fence)
    plainChar_btick hP 0]
  rfl

theorem codeTagLangTry_none (prev : Option Char) (t : Str)
    (hP : ∀ c ∈ t, plainChar c = true) : codeTagLangTry prev t = none := by
  unfold codeTagLangTry
  rw [lit_none_of_bad (List.mem_append_left "<code>".data btick_mem_fence)
    plainChar_btick hP 0]
  rfl

theorem v2aTry_none (prev : Option Char) (t : Str)
    (hP : ∀ c ∈ t, plainChar c = true) : v2aTry prev t = none := by
  unfold v2aTry
  rw [lit_none_of_bad btick_mem_fence plainChar_btick hP 0]
  rfl

theorem v2bTry_none (prev : Option Char) (t : Str)
    (hP : ∀ c ∈ t, plainChar c = true) : v2bTry prev t = none := by
  unfold v2bTry
  rw [lit_none_of_bad btick_mem_fence plainChar_btick hP 0]
  rfl

theorem v2cTry_none (prev : Option Char) (t : Str)
    (hP : ∀ c ∈ t, plainChar c = true) : v2cTry prev t = none := by
  unfold v2cTry
  rw [lit_none_of_bad btick_mem_fence plainChar_btick hP 0]
  rfl

theorem codeLangTry_none (prev : Option Char) (t : Str)
    (hP : ∀ c ∈ t, plainChar c = true) : codeLangTry prev t = none := by
  unfold codeLangTry
  rw [lit_none_of_bad (List.mem_append_left "code".data btick_mem_fence)
    plainChar_btick hP 0]
  rfl

theorem v4aTry_none (prev : Option Char) (t : Str)
    (hP : ∀ c ∈ t, plainChar c = true) : v4aTry prev t = none := by
  unfold v4aTry
  rw [lit_none_of_bad (List.mem_cons_self '<' "code>".data) (by decide) hP 0]
  rfl

theorem v4bTry_none (prev : Option Char) (t : Str)
    (hP : ∀ c ∈ t, plainChar c = true) : v4bTry prev t = none := by
  unfold v4bTry
  rw [lit_none_of_bad (List.mem_cons_self '<' "code>".data) (by decide) hP 0]
  rfl

theorem ticksTry_none (prev : Option Char) (t : Str)
    (hP : ∀ c ∈ t, plainChar c = true) : ticksTry prev t = none := by
  unfold ticksTry
  rw [if_neg]
  intro h
  have hm : btick ∈ t := mem_of_isPrefixOf h.2.1 (List.mem_cons_self btick [btick])
  have hb := plainChar_btick
  rw [hP btick hm] at hb
  exact Bool.noConfusion hb

theorem mermaid1Try_none (i : Nat) (t : Str)
    (hP : ∀ c ∈ t, plainChar c = true) : mermaid1Try i t = none := by
  unfold mermaid1Try
  rw [lit_none_of_bad btick_mem_fence plainChar_btick hP 0]
  rfl

theorem mermaid2Try_none (i : Nat) (t : Str)
    (hP : ∀ c ∈ t, plainChar c = true) : mermaid2Try i t = none := by
  unfold mermaid2Try
  rw [lit_none_of_bad (List.mem_append_left "mermaid".data btick_mem_fence)
    plainChar_btick hP 0]
  rfl

theorem codeBlockTry_none (i : Nat) (t : Str)
    (hP : ∀ c ∈ t, plainChar c = true) : codeBlockTry i t = none := by
  unfold codeBlockTry
  rw [lit_none_of_bad btick_mem_fence plainChar_btick hP 0]
  rfl

theorem inlineTry_none (i : Nat) (t : Str)
    (hP : ∀ c ∈ t, plainChar c = true) : inlineTry i t = none := by
  unfold inlineTry
  rw [if_neg]
  intro h
  have hm : btick ∈ t := mem_of_head? h
  have hb := plainChar_btick
  rw [hP btick hm] at hb
  exact Bool.noConfusion hb

end Markdown

namespace Markdown

open JsStr

theorem plain_ne {c d : Char} (h : plainChar c = true) (hd : plainChar d = false) :
    c ≠ d := fun e => by
  rw [e, hd] at h
  exact Bool.noConfusion h

theorem plain_not_dig {c : Char} (h : plainChar c = true) : isDig c = false := by
  by_contra hd
  simp only [Bool.not_eq_false] at hd
  simp [plainChar, hd] at h

theorem plain_lineTerm {c : Char} (h : plainChar c = true)
    (hl : lineTerm c = true) : c = '\n' := by
  by_contra hn
  simp [plainChar, hl, hn] at h

theorem hrLine_id (t : Str) (hP : ∀ c ∈ t, plainChar c = true) : hrLine t = t := by
  unfold hrLine
  rw [if_neg]
  intro h
  rcases h with ⟨hl, hall⟩ | ⟨hl, hall⟩ | ⟨hl, hall⟩ <;>
    (cases t with
     | nil => simp at hl
     | cons c cs =>
       have hc := hP c (List.mem_cons_self c cs)
       have h2 := List.all_eq_true.mp hall c (List.mem_cons_self c cs)
       simp only [decide_eq_true_eq] at h2
       subst h2
       exact absurd hc (by decide))

theorem hLine_id (n : Nat) (hn : n ≠ 0) (tag t : Str)
    (hP : ∀ c ∈ t, plainChar c = true) : hLine n tag t = t := by
  unfold hLine
  rw [if_neg]
  intro h
  have hm : '#' ∈ t := mem_of_isPrefixOf h.1
    (List.mem_append_left _ (List.mem_replicate.mpr ⟨hn, rfl⟩))
  exact absurd (hP '#' hm) (by decide)

theorem bqTry_none (prev : Option Char) (t : Str)
    (hP : ∀ c ∈ t, plainChar c = true) : bqTry prev t = none := by
  unfold bqTry
  rw [if_neg, if_neg]
  · intro h
    exact absurd (hP '>' (mem_of_head? h.2)) (by decide)
  · intro h
    exact absurd (hP '>' (List.drop_subset 1 t (mem_of_head? h.2))) (by decide)

theorem linkTry_none (prev : Option Char) (t : Str)
    (hP : ∀ c ∈ t, plainChar c = true) : linkTry prev t = none := by
  unfold linkTry
  rw [if_neg]
  intro h
  exact absurd (hP '[' (mem_of_head? h)) (by decide)

theorem httpPrefix_none (t : Str) (hP : ∀ c ∈ t, plainChar c = true) :
    httpPrefix t = none := by
  unfold httpPrefix
  rw [if_neg, if_neg]
  · intro h
    exact absurd (hP '/' (mem_of_isPrefixOf h (by decide))) (by decide)
  · intro h
    exact absurd (hP '/' (mem_of_isPrefixOf h (by decide))) (by decide)

theorem autoTry_none (prev : Option Char) (t : Str)
    (hP : ∀ c ∈ t, plainChar c = true) : autoTry prev t = none := by
  unfold autoTry
  split
  · rfl
  · rw [httpPrefix_none t hP]
    rfl

theorem emphTry_none (opn cls : Str) (bar : Char) (tagO tagC : Str) {c : Char}
    (hc : c ∈ opn) (hbad : plainChar c = false) (prev : Option Char) (t : Str)
    (hP : ∀ d ∈ t, plainChar d = true) :
    emphTry opn cls bar tagO tagC prev t = none := by
  unfold emphTry
  rw [if_neg]
  intro h
  have hm := hP c (mem_of_isPrefixOf h hc)
  rw [hm] at hbad
  exact Bool.noConfusion hbad

theorem ulMark_none (t : Str) (hP : ∀ c ∈ t, plainChar c = true) :
    ulMark t = none := by
  unfold ulMark
  cases t with
  | nil => rfl
  | cons c cs =>
    have hc := hP c (List.mem_cons_self c cs)
    simp only [List.head?_cons]
    split
    · rename_i heq
      injection heq with heq
      subst heq
      exact absurd hc (by decide)
    · rename_i heq
      injection heq with heq
      subst heq
      exact absurd hc (by decide)
    · rfl

theorem olMark_none (t : Str) (hP : ∀ c ∈ t, plainChar c = true) :
    olMark t = none := by
  unfold olMark
  have h0 : countWhile isDig t = 0 :=
    countWhile_eq_zero (fun c hm => plain_not_dig (hP c hm))
  rw [h0]
  rfl

theorem itemLen_none_ul (t : Str) (hP : ∀ c ∈ t, plainChar c = true) :
    itemLen ulMark t = none := by
  unfold itemLen
  dsimp only
  rw [ulMark_none _ (fun c hm => hP c (List.drop_subset _ t hm))]
  rfl

theorem itemLen_none_ol (t : Str) (hP : ∀ c ∈ t, plainChar c = true) :
    itemLen olMark t = none := by
  unfold itemLen
  dsimp only
  rw [olMark_none _ (fun c hm => hP c (List.drop_subset _ t hm))]
  rfl

theorem listTry_none (mark : Str → Option Nat) (tag : Str)
    (hmark : ∀ u, (∀ c ∈ u, plainChar c = true) → itemLen mark u = none)
    (prev : Option Char) (t : Str) (hP : ∀ c ∈ t, plainChar c = true) :
    listTry mark tag prev t = none := by
  unfold listTry
  rw [if_neg, if_neg]
  · intro h
    rw [hmark t hP] at h
    exact Bool.noConfusion h.2
  · intro h
    rw [hmark (t.drop 1) (fun c hm => hP c (List.drop_subset 1 t hm))] at h
    exact Bool.noConfusion h.2

theorem rowOk_none (t : Str) (hP : ∀ c ∈ t, plainChar c = true) :
    rowOk t = none := by
  unfold rowOk
  rw [if_neg]
  intro h
  exact absurd (hP '|' (mem_of_head? h)) (by decide)

theorem tableLen_none (t : Str) (hP : ∀ c ∈ t, plainChar c = true) :
    tableLen t = none := by
  unfold tableLen
  rw [rowOk_none t hP]
  rfl

theorem tableTry_none (prev : Option Char) (t : Str)
    (hP : ∀ c ∈ t, plainChar c = true) : tableTry prev t = none := by
  unfold tableTry
  split
  · rw [tableLen_none _ (fun c hm => hP c (List.drop_subset 1 t hm))]
    rfl
  · split
    · rw [tableLen_none t hP]
      rfl
    · rfl

theorem escapeHTML_id (s : Str) (hP : ∀ c ∈ s, plainChar c = true) :
    escapeHTML s = s := by
  unfold escapeHTML
  rw [replaceCharAll_id '&' _ s (fun hm => absurd (hP '&' hm) (by decide))]
  rw [replaceCharAll_id '<' _ s (fun hm => absurd (hP '<' hm) (by decide))]
  rw [replaceCharAll_id '>' _ s (fun hm => absurd (hP '>' hm) (by decide))]
  rw [replaceCharAll_id '"' _ s (fun hm => absurd (hP '"' hm) (by decide))]
  rw [replaceCharAll_id '\'' _ s (fun hm => absurd (hP '\'' hm) (by decide))]

end Markdown

namespace Markdown

open JsStr

theorem linePassGo_id (f : Str → Str)
    (hf : ∀ t, (∀ c ∈ t, plainChar c = true) → f t = t) :
    ∀ fuel s, (∀ c ∈ s, plainChar c = true) → linePassGo f fuel s = s := by
  intro fuel
  induction fuel with
  | zero => intro s _; rfl
  | succ fuel ih =>
    intro s hP
    rw [linePassGo]
    dsimp only
    rw [hf _ (fun c hm => hP c ((List.takeWhile_sublist _).subset hm))]
    have hsplit := List.takeWhile_append_dropWhile
      (p := fun c => decide (¬ lineTerm c = true)) (l := s)
    cases hd : s.dropWhile (fun c => decide (¬ lineTerm c = true)) with
    | nil =>
      have hs : s.takeWhile (fun c => decide (¬ lineTerm c = true)) = s := by
        conv_rhs => rw [← hsplit, hd, List.append_nil]
      have hlen : s.length ≤
          (s.takeWhile (fun c => decide (¬ lineTerm c = true))).length :=
        Nat.le_of_eq (congrArg List.length hs).symm
      rw [List.getElem?_eq_none hlen]
      rw [List.append_nil]
      exact hs
    | cons c rest =>
      have h1 : s.drop (s.takeWhile (fun c => decide (¬ lineTerm c = true))).length =
          c :: rest := by
        rw [drop_length_takeWhile, hd]
      have h2 : s[(s.takeWhile (fun c => decide (¬ lineTerm c = true))).length]? =
          some c := by
        rw [← List.head?_drop, h1]
        rfl
      rw [h2]
      dsimp only
      have h3 : s.drop
          ((s.takeWhile (fun c => decide (¬ lineTerm c = true))).length + 1) = rest := by
        rw [← List.drop_drop, h1]
        rfl
      rw [h3]
      rw [ih rest (fun d hdm => hP d ((List.dropWhile_sublist _).subset
        (hd ▸ List.mem_cons_of_mem c hdm)))]
      calc s.takeWhile (fun c => decide (¬ lineTerm c = true)) ++ c :: rest
          = s.takeWhile (fun c => decide (¬ lineTerm c = true)) ++
            s.dropWhile (fun c => decide (¬ lineTerm c = true)) := by rw [hd]
        _ = s := hsplit

theorem linePass_id (f : Str → Str)
    (hf : ∀ t, (∀ c ∈ t, plainChar c = true) → f t = t)
    (s : Str) (hP : ∀ c ∈ s, plainChar c = true) : linePass f s = s :=
  linePassGo_id f hf (s.length + 1) s hP

theorem blankIdx_none (s : Str) (h : ¬ List.IsInfix ['\n', '\n'] s) :
    blankIdx s = none := by
  induction s with
  | nil => rfl
  | cons c cs ih =>
    rw [blankIdx.eq_def]
    split
    · next tail heq =>
      rw [heq] at h
      exact absurd ⟨[], tail, by simp⟩ h
    · next y c' cs' hguard heq =>
      injection heq with heq1 heq2
      subst heq2
      rw [ih (fun hin => h (List.infix_cons hin))]
      rfl
    · rfl

theorem sbGo_single {fuel : Nat} {s : Str} (h : blankIdx s = none) :
    sbGo (fuel + 1) s = [s] := by
  rw [sbGo, h]

theorem splitBlank_single (s : Str) (h : ¬ List.IsInfix ['\n', '\n'] s) :
    splitBlank s = [s] := by
  unfold splitBlank
  exact sbGo_single (blankIdx_none s h)

theorem joinNl_single (x : Str) : joinNl [x] = x := by
  simp [joinNl]

theorem jsToLower_fixed {c d : Char}
    (hd : d.toNat < 97 ∨ (122 < d.toNat ∧ d.toNat < 1072)) (h : jsToLower c = d) :
    c = d := by
  unfold jsToLower at h
  split_ifs at h with h1 h2 h3
  · have ha := char_le_toNat h1.1
    have hb := char_le_toNat h1.2
    have hA : Char.toNat 'A' = 65 := by decide
    have hZ : Char.toNat 'Z' = 90 := by decide
    have hv : (Char.ofNat (c.toNat + 32)).toNat = c.toNat + 32 :=
      char_toNat_ofNat (by omega)
    have he := congrArg Char.toNat h
    rw [hv] at he
    omega
  · have ha := char_le_toNat h2.1
    have hb := char_le_toNat h2.2
    have hA : Char.toNat 'А' = 1040 := by decide
    have hZ : Char.toNat 'Я' = 1071 := by decide
    have hv : (Char.ofNat (c.toNat + 32)).toNat = c.toNat + 32 :=
      char_toNat_ofNat (by omega)
    have he := congrArg Char.toNat h
    rw [hv] at he
    omega
  · rw [← h] at hd
    exact absurd hd (by decide)
  · exact h

theorem ciPrefix_false (d : Char) (p t : Str) (hp : p.head? = some d)
    (hfold : jsToLower d = d)
    (hd : d.toNat < 97 ∨ (122 < d.toNat ∧ d.toNat < 1072))
    (hplain : plainChar d = false)
    (hP : ∀ c ∈ t, plainChar c = true) : ciPrefix p t = false := by
  unfold ciPrefix
  cases p with
  | nil => simp at hp
  | cons a p' =>
    have ha : a = d := by simpa using hp
    apply decide_eq_false
    intro he
    cases t with
    | nil => simp at he
    | cons c cs =>
      simp only [List.length_cons, List.take_succ_cons, List.map_cons,
        List.cons.injEq] at he
      rw [ha, hfold] at he
      have hc := jsToLower_fixed hd he.1
      rw [← hc] at hplain
      rw [hP c (List.mem_cons_self c cs)] at hplain
      exact Bool.noConfusion hplain

theorem blockTagTest_false (t : Str) (hP : ∀ c ∈ t, plainChar c = true) :
    blockTagTest t = false := by
  unfold blockTagTest
  apply decide_eq_false
  rintro (h | h | h | h | h | h | h | h | h | h | h | h | h | h)
  · rw [ciPrefix_false '<' "<h1".data t rfl (by decide) (by decide) (by decide) hP] at h
    exact Bool.noConfusion h
  · rw [ciPrefix_false '<' "<h2".data t rfl (by decide) (by decide) (by decide) hP] at h
    exact Bool.noConfusion h
  · rw [ciPrefix_false '<' "<h3".data t rfl (by decide) (by decide) (by decide) hP] at h
    exact Bool.noConfusion h
  · rw [ciPrefix_false '<' "<h4".data t rfl (by decide) (by decide) (by decide) hP] at h
    exact Bool.noConfusion h
  · rw [ciPrefix_false '<' "<h5".data t rfl (by decide) (by decide) (by decide) hP] at h
    exact Bool.noConfusion h
  · rw [ciPrefix_false '<' "<h6".data t rfl (by decide) (by decide) (by decide) hP] at h
    exact Bool.noConfusion h
  · rw [ciPrefix_false '<' "<pre".data t rfl (by decide) (by decide) (by decide) hP] at h
    exact Bool.noConfusion h
  · rw [ciPrefix_false '<' "<ul".data t rfl (by decide) (by decide) (by decide) hP] at h
    exact Bool.noConfusion h
  · rw [ciPrefix_false '<' "<ol".data t rfl (by decide) (by decide) (by decide) hP] at h
    exact Bool.noConfusion h
  · rw [ciPrefix_false '<' "<blockquote".data t rfl (by decide) (by decide) (by decide) hP] at h
    exact Bool.noConfusion h
  · rw [ciPrefix_false '<' "<hr".data t rfl (by decide) (by decide) (by decide) hP] at h
    exact Bool.noConfusion h
  · rw [ciPrefix_false '<' "<table".data t rfl (by decide) (by decide) (by decide) hP] at h
    exact Bool.noConfusion h
  · rw [ciPrefix_false '<' "<div class=\"mermaid-wrapper\"".data t rfl (by decide) (by decide) (by decide) hP] at h
    exact Bool.noConfusion h
  · rw [ciPrefix_false '§' "§§MERMAID".data t rfl (by decide) (by decide) (by decide) hP] at h
    exact Bool.noConfusion h

theorem paraBlock_plain (s : Str) (hne : s ≠ [])
    (hP : ∀ c ∈ s, plainChar c = true) (htrim : trimJS s = s) :
    paraBlock s =
      "<p>".data ++ replaceCharAll '\n' "<br>".data s ++ "</p>".data := by
  unfold paraBlock
  dsimp only
  rw [htrim]
  rw [if_neg, if_neg]
  · intro hb
    rw [blockTagTest_false s hP] at hb
    exact Bool.noConfusion hb
  · intro hh
    exact hne (List.isEmpty_iff.mp hh)

theorem paragraphs_plain (s : Str) (hne : s ≠ [])
    (hP : ∀ c ∈ s, plainChar c = true)
    (hnn : ¬ List.IsInfix ['\n', '\n'] s) (htrim : trimJS s = s) :
    paragraphs s =
      "<p>".data ++ replaceCharAll '\n' "<br>".data s ++ "</p>".data := by
  unfold paragraphs
  rw [splitBlank_single s hnn]
  simp only [List.map_cons, List.map_nil]
  rw [paraBlock_plain s hne hP htrim]
  exact joinNl_single _

end Markdown

namespace Markdown

open JsStr

theorem midStages_plain (s : Str) (hne : s ≠ [])
    (hP : ∀ c ∈ s, plainChar c = true)
    (hnn : ¬ List.IsInfix ['\n', '\n'] s) (htrim : trimJS s = s) :
    midStages s =
      "<p>".data ++ replaceCharAll '\n' "<br>".data s ++ "</p>".data := by
  unfold midStages
  rw [escapeHTML_id s hP]
  rw [linePass_id hrLine hrLine_id s hP]
  rw [runRepl_id bqTry bqTry_none s hP]
  rw [linePass_id _ (hLine_id 6 (by omega) "h6".data) s hP]
  rw [linePass_id _ (hLine_id 5 (by omega) "h5".data) s hP]
  rw [linePass_id _ (hLine_id 4 (by omega) "h4".data) s hP]
  rw [linePass_id _ (hLine_id 3 (by omega) "h3".data) s hP]
  rw [linePass_id _ (hLine_id 2 (by omega) "h2".data) s hP]
  rw [linePass_id _ (hLine_id 1 (by omega) "h1".data) s hP]
  rw [runRepl_id linkTry linkTry_none s hP]
  rw [runRepl_id autoTry autoTry_none s hP]
  rw [runRepl_id strikeTry
    (fun prev t h => emphTry_none _ _ _ _ _ (show '~' ∈ "~~".data by decide)
      (by decide) prev t h) s hP]
  rw [runRepl_id boldTry
    (fun prev t h => emphTry_none _ _ _ _ _ (show '*' ∈ "**".data by decide)
      (by decide) prev t h) s hP]
  rw [runRepl_id bold2Try
    (fun prev t h => emphTry_none _ _ _ _ _ (show '_' ∈ "__".data by decide)
      (by decide) prev t h) s hP]
  rw [runRepl_id italTry
    (fun prev t h => emphTry_none _ _ _ _ _ (show '_' ∈ "_".data by decide)
      (by decide) prev t h) s hP]
  rw [runRepl_id ulTry
    (fun prev t h => listTry_none ulMark "ul".data itemLen_none_ul prev t h) s hP]
  rw [runRepl_id olTry
    (fun prev t h => listTry_none olMark "ol".data itemLen_none_ol prev t h) s hP]
  rw [runRepl_id tableTry tableTry_none s hP]
  exact paragraphs_plain s hne hP hnn htrim

end Markdown

namespace Markdown

instance (s : JsStr.Str) : Decidable (PlainText s) := by
  unfold PlainText
  infer_instance

end Markdown

open JsStr

/-- C2 (counterexample part): the universally quantified coverage claim
fails for the XML tokenizer, because on the input `<a <` the attribute
scan never terminates: no amount of fuel makes `xmlSpans` produce a
span list at all, so no span concatenation covering the input exists. -/
theorem C2_xml_no_spans_counterexample :
    ¬ ∃ fuel toks, XML.xmlSpans XML.xmlBad fuel = some toks := by
  rintro ⟨fuel, toks, h⟩
  have hb : XML.xmlSpans XML.xmlBad fuel = none := XML.xmlGo_bad fuel
  rw [hb] at h
  exact Option.noConfusion h

/-- C2 (amended): total coverage holds unconditionally for the BSL
tokenizer, and for the XML tokenizer it holds whenever the scan
terminates: any span list it emits concatenates (un-escaped) exactly to
the input, with no characters dropped or duplicated. -/
theorem C2_span_coverage :
    (∀ code : Str, srcConcat (BSL.bslSpans code) = code) ∧
    (∀ (code : Str) (fuel : Nat) (toks : List XML.XSpan),
        XML.xmlSpans code fuel = some toks → XML.xsrc toks = code) :=
  ⟨BSL.bslSpans_cov, XML.xmlSpans_cov⟩

/-- Witness for C2: concrete coverage on a BSL snippet and on the XML
input `<a/>`, whose scan terminates with two spans. -/
theorem C2_span_coverage_witness :
    srcConcat (BSL.bslSpans "Если x Тогда".data) = "Если x Тогда".data ∧
    XML.xsrc [(some "tok-xml-tag", "<a".data), (some "tok-xml-tag", "/>".data)] =
      "<a/>".data :=
  ⟨C2_span_coverage.1 "Если x Тогда".data,
    C2_span_coverage.2 "<a/>".data 10
      [(some "tok-xml-tag", "<a".data), (some "tok-xml-tag", "/>".data)]
      (by decide)⟩

/-- C3 (refuted): `highlightXML` is not total.  On the input `<a <` the
attribute loop never advances (the guard accepts a second `<` but no
branch consumes it), so for every fuel bound the embedded scan reports
non-termination: the tokenizer hangs instead of extending an unmatched
region to end-of-input. -/
theorem C3_xml_hangs : ∀ fuel : Nat, XML.xmlSpans XML.xmlBad fuel = none :=
  fun fuel => XML.xmlGo_bad fuel

/-- C4 (counterexample part): the minted markers are not always absent
from the pre-extraction text: an input that itself contains the literal
text `§§CODEBLOCK0§§` together with one fenced block mints exactly that
marker, which does occur in the input. -/
theorem C4_marker_in_input_counterexample :
    Markdown.mkToken "CODEBLOCK".data 0 ∈
      Markdown.mintedMarkers "§§CODEBLOCK0§§\n```bsl\nx\n```".data ∧
    List.IsInfix (Markdown.mkToken "CODEBLOCK".data 0)
      "§§CODEBLOCK0§§\n```bsl\nx\n```".data := by
  constructor
  · decide
  · decide

/-- C4 (amended): the markers minted by a single render call are always
pairwise distinct; and whenever the input contains no occurrence of the
marker alphabet `§§`, no minted marker occurs in the pre-extraction
input text. -/
theorem C4_markers_distinct :
    (∀ md : Str, (Markdown.mintedMarkers md).Pairwise (fun a b => a ≠ b)) ∧
    (∀ (md m : Str), ¬ List.IsInfix "§§".data md →
        m ∈ Markdown.mintedMarkers md → ¬ List.IsInfix m md) := by
  constructor
  · intro md
    exact Markdown.mintedMarkers_nodup md
  · intro md m hmd hm hin
    exact hmd (List.IsInfix.trans (Markdown.mintedMarkers_sect hm).isInfix hin)

/-- Witness for C4: on the input `x 'y' z` (with backticks) the only
minted marker is the inline-code one, the marker list is duplicate-free,
and the marker does not occur in the input. -/
theorem C4_markers_distinct_witness :
    (Markdown.mintedMarkers "x `y` z".data).Pairwise (fun a b => a ≠ b) ∧
    ¬ List.IsInfix (Markdown.mkToken "INLINECODE".data 0) "x `y` z".data :=
  ⟨C4_markers_distinct.1 "x `y` z".data,
    C4_markers_distinct.2 "x `y` z".data (Markdown.mkToken "INLINECODE".data 0)
      (by decide) (by decide)⟩

/-- C5 (counterexample part): restoration is not literal.  Rendering
the four-character input `` `$&` `` stores `<code>$&amp;</code>` for
the inline-code placeholder, and the `$&` in the stored HTML is
substituted with the matched marker during `String.replace`, so the
marker text leaks into the output; a literal splice would have produced
`<p><code>$&amp;</code></p>` instead. -/
theorem C5_dollar_counterexample :
    Markdown.render "`$&`".data =
      "<p><code>§§INLINECODE0§§amp;</code></p>".data ∧
    litReplace (Markdown.mkToken "INLINECODE".data 0) "<code>$&amp;</code>".data
        "<p>§§INLINECODE0§§</p>".data = "<p><code>$&amp;</code></p>".data ∧
    Markdown.render "`$&`".data ≠ "<p><code>$&amp;</code></p>".data := by
  refine ⟨by decide, by decide, by decide⟩

/-- C5 (amended): whenever the stored HTML contains no `$`, the
source's `String.replace` restoration coincides with literal substring
replacement of the first marker occurrence. -/
theorem C5_literal_when_no_dollar (needle rep s : Str) (h : '$' ∉ rep) :
    jsReplace needle rep s = litReplace needle rep s := by
  unfold jsReplace litReplace
  cases hf : findSub needle s with
  | none => rfl
  | some i =>
    dsimp only
    rw [dollarSubst_no_dollar needle (s.take i) (s.drop (i + needle.length))
      (rep.length + 1) rep h]

/-- Witness for C5: a dollar-free replacement is spliced literally. -/
theorem C5_literal_when_no_dollar_witness :
    jsReplace "ab".data "XY".data "zabz".data =
      litReplace "ab".data "XY".data "zabz".data :=
  C5_literal_when_no_dollar "ab".data "XY".data "zabz".data (by decide)

/-- C6: in the BSL tokenizer a span whose first character is
immediately preceded by `.` in the source is never emitted with the
keyword, type, or builtin class, for every input and position. -/
theorem C6_member_access_never_vocab (code : Str) (tok : Tok)
    (hmem : tok ∈ BSL.bslSpans code) (h0 : 0 < tok.start)
    (hdot : code[tok.start - 1]? = some '.') :
    ¬(tok.cls = some "tok-k" ∨ tok.cls = some "tok-type" ∨
      tok.cls = some "tok-builtin") := by
  intro hcls
  exact BSL.bslGo_mem_no_dot code (code.length + 1) 0 tok hmem hcls ⟨h0, hdot⟩

/-- Witness for C6: in `x.если` the word `если` is in the keyword
vocabulary but, following a dot, its span carries no class. -/
theorem C6_member_access_witness :
    ¬((Tok.mk 2 none "если".data).cls = some "tok-k" ∨
      (Tok.mk 2 none "если".data).cls = some "tok-type" ∨
      (Tok.mk 2 none "если".data).cls = some "tok-builtin") :=
  C6_member_access_never_vocab "x.если".data (Tok.mk 2 none "если".data)
    (by decide) (by decide) (by decide)

/-- C7 (refuted): a text containing the declaration keyword pair
`Процедура` / `КонецПроцедуры` as standalone words is NOT classified
positive — the `\b` boundaries of the trigger regexes are ASCII-only,
so the Cyrillic alternatives can never match — while the Latin spelling
`Procedure` / `EndProcedure` does classify positive. -/
theorem C7_cyrillic_triggers_dead :
    BSL.likelyBSL "Процедура Тест()\nКонецПроцедуры".data = false ∧
    BSL.likelyBSL "Procedure Test()\nEndProcedure".data = true := by
  refine ⟨by decide, by decide⟩

/-- C8: the diagram sanitization chain (processMermaidBlock, then
sanitizeMermaidCode) on `A[Массив(i)] --> B{x<=5}` replaces the nested
parentheses with `⦅`/`⦆`, rewrites `<=` to ` ≤ `, and preserves the
outer node delimiters and the arrow. -/
theorem C8_mermaid_chain :
    Markdown.mermaidChain "A[Массив(i)] --> B{x<=5}".data =
      "A[Массив⦅i⦆] --> B{x ≤ 5}".data := by
  decide

/-- C9: rendering plain text (non-empty, no marker characters, no blank
line, no surrounding whitespace) yields exactly `<p>` + the escaped
text with `\n` turned into `<br>` + `</p>`. -/
theorem C9_plain_text_round_trip (s : Str) (h : Markdown.PlainText s) :
    Markdown.render s =
      "<p>".data ++ replaceCharAll '\n' "<br>".data (Markdown.escapeHTML s) ++
        "</p>".data := by
  obtain ⟨hne, hP, hnn, htrim⟩ := h
  rw [Markdown.escapeHTML_id s hP]
  unfold Markdown.render
  rw [if_neg (fun he => hne (List.isEmpty_iff.mp he))]
  have hfn : Markdown.fenceNorm s = s := by
    unfold Markdown.fenceNorm
    rw [runRepl_id Markdown.emptyFenceTry Markdown.emptyFenceTry_none s hP]
    rw [runRepl_id Markdown.oneCTry Markdown.oneCTry_none s hP]
    rw [runRepl_id Markdown.codeTagLangTry Markdown.codeTagLangTry_none s hP]
    rw [runRepl_id Markdown.v2aTry Markdown.v2aTry_none s hP]
    rw [runRepl_id Markdown.v2bTry Markdown.v2bTry_none s hP]
    rw [runRepl_id Markdown.v2cTry Markdown.v2cTry_none s hP]
    rw [runRepl_id Markdown.codeLangTry Markdown.codeLangTry_none s hP]
    rw [runRepl_id Markdown.v4aTry Markdown.v4aTry_none s hP]
    rw [runRepl_id Markdown.v4bTry Markdown.v4bTry_none s hP]
    rw [runRepl_id Markdown.ticksTry Markdown.ticksTry_none s hP]
  rw [hfn]
  have hm : Markdown.extMermaid s = (s, []) := by
    unfold Markdown.extMermaid
    rw [runExt_id Markdown.mermaid1Try Markdown.mermaid1Try_none s [] hP]
    dsimp only
    exact runExt_id Markdown.mermaid2Try Markdown.mermaid2Try_none s [] hP
  rw [hm]
  dsimp only
  rw [runExt_id Markdown.codeBlockTry Markdown.codeBlockTry_none s [] hP]
  dsimp only
  rw [runExt_id Markdown.inlineTry Markdown.inlineTry_none s [] hP]
  dsimp only
  exact Markdown.midStages_plain s hne hP hnn htrim

/-- Witness for C9: rendering a concrete plain two-line text. -/
theorem C9_plain_text_round_trip_witness :
    Markdown.render "Привет\nмир!".data =
      "<p>".data ++
        replaceCharAll '\n' "<br>".data (Markdown.escapeHTML "Привет\nмир!".data) ++
        "</p>".data :=
  C9_plain_text_round_trip "Привет\nмир!".data (by decide)

/-- The specification's reading of the language tag condition: the tag
is present and spells `bsl` or `1c` up to case. -/
def langIsBsl (lang : Option String) : Bool :=
  match lang with
  | none => false
  | some l => l.data.map jsToLower = "bsl".data ∨ l.data.map jsToLower = "1c".data

/-- C10: `highlight(code, lang)` returns null exactly when the tag does
not spell bsl/1c case-insensitively and the heuristic is negative; a
bsl/1c tag always yields the highlighted HTML, for any code. -/
theorem C10_highlight_none_iff (code : Str) (lang : Option String) :
    (BSL.highlight code lang = none ↔
      (langIsBsl lang = false ∧ BSL.likelyBSL code = false)) ∧
    (langIsBsl lang = true →
      BSL.highlight code lang = some (BSL.highlightBSL code)) := by
  have hl : BSL.langForce lang = langIsBsl lang := by
    cases lang with
    | none => rfl
    | some l =>
      by_cases h : l.data.map jsToLower = "bsl".data ∨ l.data.map jsToLower = "1c".data
      · have hne : l.data ≠ [] := by
          rcases h with h | h <;>
            · intro e
              rw [e] at h
              simp at h
        simp [BSL.langForce, langIsBsl, h, hne]
      · simp [BSL.langForce, langIsBsl, h]
  constructor
  · unfold BSL.highlight
    rw [hl]
    by_cases hb : langIsBsl lang = true
    · simp [hb]
    · by_cases hk : BSL.likelyBSL code = true
      · simp [hb, hk]
      · simp [hb, hk]
  · intro hb
    unfold BSL.highlight
    rw [hl, hb]
    simp

/-- Witness for C10: a forcing tag (`BSL`, case-insensitive) always
highlights, and a plain Russian text with no tag yields null. -/
theorem C10_highlight_witness :
    BSL.highlight "x".data (some "BSL") = some (BSL.highlightBSL "x".data) ∧
    BSL.highlight "привет".data none = none :=
  ⟨(C10_highlight_none_iff "x".data (some "BSL")).2 (by decide),
    (C10_highlight_none_iff "привет".data none).1.mpr ⟨by decide, by decide⟩⟩
